import Mathlib

/-!
Shallow embedding of the cozy/prosemirror-go document model and transform
engine (packages model and transform), used to check the claims of the
specification against the source.

Conventions of the embedding:
- Go ints are modelled as Int; Go byte strings as List Nat (one entry per
  byte, since the Go code indexes text by byte offsets).
- Go maps of attributes are modelled as association lists; reflect.DeepEqual
  on attribute maps is modelled by the key-set comparison attrsDeepEq.
- Pointer equality of NodeType and MarkType values (which in Go are unique
  per schema) is modelled by structural equality of the embedded records.
- Fallible Go functions returning (T, error) are modelled with Except String;
  functions that can additionally call panic are modelled with the three-way
  result type PE below (ok / err / crash), where crash corresponds to an
  explicit Go panic.
- The ContentMatch DFA, a cyclic graph in Go, is modelled as an arena of
  states indexed by Nat, with index 0 playing the role of the shared
  EmptyContentMatch value (so IsLeaf, which Go implements as pointer equality
  with EmptyContentMatch, is the test cmIx = 0).
- Error strings follow the Go fmt strings, except that renderings of whole
  fragments or nodes inside messages (Go %v verbs) are omitted.
-/

namespace PMGo

/-- Result of a Go function that may return a value, return an error value,
or panic. crash corresponds to an explicit Go panic. -/
inductive PE (α : Type) : Type where
  | ok (a : α)
  | err (m : String)
  | crash (m : String)
deriving Repr, DecidableEq

/-- True when the result is a Go panic. -/
def PE.isCrash {α} : PE α → Bool
  | .crash _ => true
  | _ => false

/-- True when the result is a returned value. -/
def PE.isOk {α} : PE α → Bool
  | .ok _ => true
  | _ => false

/-- True when the result is a returned error / failed step result. -/
def PE.isErr {α} : PE α → Bool
  | .err _ => true
  | _ => false

/-- Attribute values: the JSON-compatible scalars that the claims exercise. -/
inductive AttrVal : Type where
  | null
  | boolean (b : Bool)
  | int (n : Int)
  | str (s : String)
deriving Repr, DecidableEq

/-- Attribute maps (Go map[string]interface); modelled as association lists
with distinct keys. -/
abbrev Attrs := List (String × AttrVal)

/-- Lookup in an attribute map. -/
def attrsGet (a : Attrs) (k : String) : Option AttrVal :=
  (a.find? (fun p => p.1 = k)).map (·.2)

/-- reflect.DeepEqual on two attribute maps: same size and every key of the
first maps to an equal value in the second. -/
def attrsDeepEq (a b : Attrs) : Bool :=
  a.length = b.length && a.all (fun p => attrsGet b p.1 = some p.2)

/-- Compiled attribute descriptor (model/schema.go Attribute). -/
structure Attribute : Type where
  hasDefault : Bool
  default : AttrVal
deriving Repr, DecidableEq

/-- Mark type data (model/schema.go MarkType). excluded holds the names of the
excluded mark types (Go stores pointers; names are unique per schema).
instanceAttrs models the cached Instance mark: some defaults when the Go
Instance field is non-nil. -/
structure MarkTypeE : Type where
  name : String
  rank : Int
  attrs : List (String × Attribute)
  excluded : List String
  instanceAttrs : Option Attrs
deriving Repr, DecidableEq

/-- A mark (model/mark.go Mark). -/
structure Mark : Type where
  typ : MarkTypeE
  attrs : Attrs
deriving Repr, DecidableEq

/-- Mark.Eq: same type and deeply-equal attributes (model/mark.go). -/
def Mark.eqb (m other : Mark) : Bool :=
  m.typ = other.typ && m.attrs.length = other.attrs.length
    && attrsDeepEq m.attrs other.attrs

/-- MarkType.Excludes (model/schema.go): empty excluded list means no
exclusion, otherwise membership of the other type. -/
def MarkTypeE.excludes (mt : MarkTypeE) (other : MarkTypeE) : Bool :=
  if mt.excluded.length = 0 then false else mt.excluded.contains other.name

/-- Node type data (model/schema.go NodeType). cmIx indexes the content-match
arena of the schema; index 0 is the shared EmptyContentMatch, so the Go test
ContentMatch == EmptyContentMatch (IsLeaf) is cmIx = 0. markSet none means all
marks allowed. -/
structure NodeTypeE : Type where
  name : String
  inlineSpec : Bool
  groups : List String
  cmIx : Nat
  attrs : List (String × Attribute)
  markSet : Option (List String)
deriving Repr, DecidableEq

/-- NodeType.IsText (model/schema.go). -/
def NodeTypeE.isTextT (t : NodeTypeE) : Bool := t.name = "text"

/-- NodeType.IsBlock (model/schema.go). -/
def NodeTypeE.isBlock (t : NodeTypeE) : Bool := !t.inlineSpec && t.name ≠ "text"

/-- NodeType.IsInline (model/schema.go). -/
def NodeTypeE.isInline (t : NodeTypeE) : Bool := !t.isBlock

/-- NodeType.IsLeaf (model/schema.go): pointer equality with EmptyContentMatch,
modelled as arena index 0. -/
def NodeTypeE.isLeaf (t : NodeTypeE) : Bool := t.cmIx = 0

/-- A document node (model/node.go Node). text is present exactly on text
nodes and holds the byte sequence of the Go string. content models the
Fragment (its cached Size field is the computed size below: every fragment
the Go code constructs carries the sum of its children's sizes). -/
inductive Node : Type where
  | mk (typ : NodeTypeE) (attrs : Attrs) (text : Option (List Nat))
       (content : List Node) (marks : List Mark)
deriving Repr

/-- Helper exposing the ambient decidable equality of a component type. -/
def dEq {α : Type} [DecidableEq α] (a b : α) : Decidable (a = b) := inferInstance

mutual
/-- Decidable structural equality on nodes. -/
def Node.decEq : (a b : Node) → Decidable (a = b)
  | .mk t1 a1 x1 c1 m1, .mk t2 a2 x2 c2 m2 =>
    match dEq t1 t2 with
    | isFalse h => isFalse (fun he => by cases he; exact h rfl)
    | isTrue ht =>
      match dEq a1 a2 with
      | isFalse h => isFalse (fun he => by cases he; exact h rfl)
      | isTrue ha =>
        match dEq x1 x2 with
        | isFalse h => isFalse (fun he => by cases he; exact h rfl)
        | isTrue hx =>
          match Node.decEqList c1 c2 with
          | isFalse h => isFalse (fun he => by cases he; exact h rfl)
          | isTrue hc =>
            match dEq m1 m2 with
            | isFalse h => isFalse (fun he => by cases he; exact h rfl)
            | isTrue hm => isTrue (by rw [ht, ha, hx, hc, hm])

/-- Decidable structural equality on lists of nodes. -/
def Node.decEqList : (a b : List Node) → Decidable (a = b)
  | [], [] => isTrue rfl
  | [], _ :: _ => isFalse (fun he => by cases he)
  | _ :: _, [] => isFalse (fun he => by cases he)
  | x :: xs, y :: ys =>
    match Node.decEq x y with
    | isFalse h => isFalse (fun he => by cases he; exact h rfl)
    | isTrue hh =>
      match Node.decEqList xs ys with
      | isFalse h => isFalse (fun he => by cases he; exact h rfl)
      | isTrue ht => isTrue (by rw [hh, ht])
end

instance : DecidableEq Node := Node.decEq

instance : DecidableEq (List Node) := Node.decEqList

/-- Type of a node. -/
def Node.typ : Node → NodeTypeE
  | .mk t _ _ _ _ => t

/-- Attributes of a node. -/
def Node.attrs : Node → Attrs
  | .mk _ a _ _ _ => a

/-- Text of a node (bytes of the Go string), none for non-text nodes. -/
def Node.text : Node → Option (List Nat)
  | .mk _ _ tx _ _ => tx

/-- Children of a node (the Fragment's content). -/
def Node.content : Node → List Node
  | .mk _ _ _ c _ => c

/-- Marks of a node. -/
def Node.marks : Node → List Mark
  | .mk _ _ _ _ m => m

/-- Node.IsText (model/node.go): the Text field is present. -/
def Node.isText (n : Node) : Bool := n.text.isSome

/-- Node.IsLeaf (model/node.go): delegates to the type. -/
def Node.isLeaf (n : Node) : Bool := n.typ.isLeaf

/-- Node.IsBlock (model/node.go): delegates to the type. -/
def Node.isBlock (n : Node) : Bool := n.typ.isBlock

/-- Node.IsInline. -/
def Node.isInline (n : Node) : Bool := n.typ.isInline

mutual
/-- Node.NodeSize (model/node.go): byte length of the text for text nodes,
1 for non-text leaves, 2 + content size otherwise. -/
def Node.nodeSize : Node → Int
  | .mk t _ tx c _ =>
    match tx with
    | some s => (s.length : Int)
    | none => if t.cmIx = 0 then 1 else 2 + nodeListSize c

/-- Fragment.Size: the sum of the children's NodeSize. -/
def nodeListSize : List Node → Int
  | [] => 0
  | n :: ns => n.nodeSize + nodeListSize ns
end

/-- The size of a node's content fragment. -/
def Node.contentSize (n : Node) : Int := nodeListSize n.content

mutual
/-- Weight measure used for termination of functions that descend into
children. -/
def nodeW : Node → Nat
  | .mk _ _ _ c _ => 1 + nodeListW c

/-- Weight of a list of nodes. -/
def nodeListW : List Node → Nat
  | [] => 0
  | n :: ns => nodeW n + nodeListW ns
end

theorem nodeW_le_of_mem {n : Node} {l : List Node} (h : n ∈ l) :
    nodeW n ≤ nodeListW l := by
  induction l with
  | nil => cases h
  | cons x xs ih =>
    rcases List.mem_cons.mp h with h' | h'
    · subst h'; simp only [nodeListW]; omega
    · have := ih h'; simp only [nodeListW]; omega

theorem nodeW_lt_of_mem_content {n child : Node} (h : child ∈ n.content) :
    nodeW child < nodeW n := by
  cases n with
  | mk t a tx c m =>
    have hle := nodeW_le_of_mem h
    simp only [Node.content] at hle
    simp [nodeW]
    omega

/-! ## Fragment and node operations (model/fragment.go, model/node.go) -/

/-- Go byte-string slicing s[a:b], at the in-range call sites used below. -/
def goByteSlice (s : List Nat) (a b : Int) : List Nat :=
  (s.drop a.toNat).take (b - a).toNat

/-- Node.WithText (model/node.go): reuse the node when the text is unchanged,
otherwise build a new text node (NewTextNode sets Content to the empty
fragment). -/
def Node.withText (n : Node) (t : List Nat) : Node :=
  if n.text = some t then n else .mk n.typ n.attrs (some t) [] n.marks

/-- Node.Copy (model/node.go): same type, attributes and marks with the given
content (NewNode leaves the Text field nil). -/
def Node.copy (n : Node) (c : List Node) : Node :=
  .mk n.typ n.attrs none c n.marks

/-- SameMarkSet (model/mark.go): pairwise Mark.Eq. -/
def sameMarkSet (a b : List Mark) : Bool :=
  a.length = b.length && (a.zip b).all (fun p => Mark.eqb p.1 p.2)

/-- Helper for sameMarks (model/mark.go): in Go this compares mark pointers
pairwise; modelled by structural equality. -/
def sameMarks (a b : List Mark) : Bool :=
  a.length = b.length && (a.zip b).all (fun p => p.1 = p.2)

/-- Node.HasMarkup (model/node.go) with explicit attrs and marks arguments,
including the special treatment of a "nodeType" attribute (the Go code also
mutates n.Attrs in that branch; the mutation is not observable through the
returned value and is not modelled). -/
def Node.hasMarkup (n : Node) (typ : NodeTypeE) (attrs : Attrs)
    (marks : List Mark) : Bool :=
  if n.typ ≠ typ then false
  else if attrsDeepEq n.attrs attrs then sameMarkSet n.marks marks
  else if (attrsGet n.attrs "nodeType").isSome then false
  else
    match attrsGet attrs "nodeType" with
    | none => false
    | some nt =>
      if attrsDeepEq (n.attrs ++ [("nodeType", nt)]) attrs then
        sameMarkSet n.marks marks
      else false

/-- Node.SameMarkup (model/node.go). -/
def Node.sameMarkup (n other : Node) : Bool :=
  n.hasMarkup other.typ other.attrs other.marks

/-- Node.Mark (model/node.go): copy with the given marks. -/
def Node.mark (n : Node) (marks : List Mark) : Node :=
  if sameMarks n.marks marks then n
  else match n.text with
    | some t => .mk n.typ n.attrs (some t) [] marks
    | none => .mk n.typ n.attrs none n.content marks

theorem nodeW_pos (n : Node) : 1 ≤ nodeW n := by
  cases n with
  | mk t a tx c m => simp only [nodeW]; omega

mutual
/-- Node.Cut (model/node.go) with an explicit to argument (none when the Go
caller omits it). -/
def Node.cut (n : Node) (from_ : Int) (to? : Option Int) : Node :=
  match n.text with
  | some s =>
    let t := to?.getD (s.length : Int)
    if from_ = 0 ∧ t = (s.length : Int) then n
    else n.withText (goByteSlice s from_ t)
  | none =>
    match to? with
    | none => n.copy (fragCut n.content from_ (nodeListSize n.content))
    | some t =>
      if from_ = 0 ∧ t = nodeListSize n.content then n
      else n.copy (fragCut n.content from_ t)
termination_by 3 * nodeW n
decreasing_by
  · cases n with
    | mk t₀ a₀ tx₀ c₀ m₀ => simp only [nodeW, Node.content]; omega
  · cases n with
    | mk t₀ a₀ tx₀ c₀ m₀ => simp only [nodeW, Node.content]; omega

/-- Fragment.Cut (model/fragment.go). -/
def fragCut (f : List Node) (from_ to_ : Int) : List Node :=
  if from_ = 0 ∧ to_ = nodeListSize f then f
  else if to_ > from_ then fragCutLoop from_ to_ f 0
  else []
termination_by 3 * nodeListW f + 2
decreasing_by omega

/-- The child loop of Fragment.Cut. -/
def fragCutLoop (from_ to_ : Int) : List Node → Int → List Node
  | [], _ => []
  | c :: cs, pos =>
    if pos ≥ to_ then []
    else
      let e := pos + c.nodeSize
      let rest := fragCutLoop from_ to_ cs e
      if e > from_ then
        let c' :=
          if pos < from_ ∨ e > to_ then
            if c.isText then
              c.cut (max (from_ - pos) 0)
                (some (min ((c.text.getD []).length : Int) (to_ - pos)))
            else
              c.cut (max (from_ - pos - 1) 0)
                (some (min (nodeListSize c.content) (to_ - pos - 1)))
          else c
        c' :: rest
      else rest
termination_by l => 3 * nodeListW l + 1
decreasing_by
  · have := nodeW_pos c
    simp only [nodeW, nodeListW]
    omega
  · have := nodeW_pos c
    simp only [nodeW, nodeListW]
    omega
  · have := nodeW_pos c
    simp only [nodeW, nodeListW]
    omega
end

/-- Fragment.Append (model/fragment.go): merge a trailing and leading text
node with identical markup at the seam. -/
def fragAppend (f g : List Node) : List Node :=
  if nodeListSize g = 0 then f
  else if nodeListSize f = 0 then g
  else
    match f.getLast?, g.head? with
    | some last, some first =>
      if last.isText && last.sameMarkup first then
        f.dropLast ++ (last.withText ((last.text.getD []) ++ (first.text.getD []))) :: g.tail
      else f ++ g
    | _, _ => f ++ g

/-- Fragment.ReplaceChild (model/fragment.go). -/
def fragReplaceChild (f : List Node) (i : Nat) (node : Node) : List Node :=
  if f.get? i = some node then f else f.set i node

/-- Fragment.Child (model/fragment.go): error when the index is out of
range (the Go message also renders the fragment). -/
def fragChild (f : List Node) (i : Nat) : Except String Node :=
  match f.get? i with
  | some c => .ok c
  | none => .error s!"Index {i} out of range"

/-- Fragment.MaybeChild (model/fragment.go). -/
def fragMaybeChild (f : List Node) (i : Nat) : Option Node := f.get? i

/-- The scan loop of Fragment.findIndex; the empty case is the unreachable
branch where the Go code panics with "Unexpected state". -/
def findIndexLoop (pos r : Int) : List Node → Nat → Int → Except String (Nat × Int)
  | [], _, _ => .error "Unexpected state"
  | c :: cs, i, curPos =>
    let e := curPos + c.nodeSize
    if e ≥ pos then
      if e = pos ∨ r > 0 then .ok (i + 1, e) else .ok (i, curPos)
    else findIndexLoop pos r cs (i + 1) e

/-- Fragment.findIndex (model/fragment.go) with an explicit round argument
(the Go message for the range error also renders the fragment). -/
def fragFindIndexRound (f : List Node) (pos r : Int) : Except String (Nat × Int) :=
  if pos = 0 then .ok (0, pos)
  else if pos = nodeListSize f then .ok (f.length, pos)
  else if pos > nodeListSize f ∨ pos < 0 then
    .error s!"Position {pos} outside of fragment"
  else findIndexLoop pos r f 0 0

/-- Fragment.findIndex with the default round of -1. -/
def fragFindIndex (f : List Node) (pos : Int) : Except String (Nat × Int) :=
  fragFindIndexRound f pos (-1)

/-- Node.NodeAt (model/node.go): finds the node directly after the given
position; an error from findIndex is an explicit Go panic (crash). -/
def Node.nodeAt (n : Node) (pos : Int) : PE (Option Node) :=
  match fragFindIndex n.content pos with
  | .error e => .crash e
  | .ok (index, offset) =>
    match h : fragMaybeChild n.content index with
    | none => .ok none
    | some child =>
      if offset = pos ∨ child.isText then .ok (some child)
      else child.nodeAt (pos - offset - 1)
termination_by nodeW n
decreasing_by
  exact nodeW_lt_of_mem_content (List.get?_mem h)

/-! ## Resolved positions (model/resolvedpos.go) -/

/-- One level of a resolved position's path. The Go code stores a flat list
with three slots per level (ancestor node, child index, absolute position);
start is the third slot. -/
structure PathEl : Type where
  node : Node
  index : Nat
  start : Int
deriving Repr, DecidableEq

/-- ResolvedPos (model/resolvedpos.go). The Depth field of the Go struct is
always len(path)/3 - 1 (set by NewResolvedPos) and is modelled by the depth
function below. -/
structure ResolvedPos : Type where
  pos : Int
  path : List PathEl
  parentOffset : Int
deriving Repr, DecidableEq

/-- Depth of a resolved position: number of path levels minus one. -/
def ResolvedPos.depth (r : ResolvedPos) : Int := (r.path.length : Int) - 1

/-- Placeholder node used as the default of out-of-range path indexing, which
in Go would be a runtime panic; all call sites proved about stay in range. -/
def defaultNode : Node := .mk ⟨"", false, [], 0, [], none⟩ [] none [] []

/-- Default path element (see defaultNode). -/
def defaultPathEl : PathEl := ⟨defaultNode, 0, 0⟩

/-- Path access at an integer level. -/
def ResolvedPos.pathEl (r : ResolvedPos) (i : Int) : PathEl :=
  r.path.getD i.toNat defaultPathEl

/-- resolveDepth for an explicitly supplied depth: negative values count down
from the position's depth. -/
def ResolvedPos.rD (r : ResolvedPos) (d : Int) : Int :=
  if d < 0 then r.depth + d else d

/-- ResolvedPos.Node. -/
def ResolvedPos.nodeAtD (r : ResolvedPos) (d : Int) : Node :=
  (r.pathEl (r.rD d)).node

/-- ResolvedPos.Index. -/
def ResolvedPos.indexD (r : ResolvedPos) (d : Int) : Nat :=
  (r.pathEl (r.rD d)).index

/-- ResolvedPos.Start: 0 at depth 0, otherwise the third path slot of the
previous level plus one. -/
def ResolvedPos.startD (r : ResolvedPos) (d : Int) : Int :=
  let rd := r.rD d
  if rd = 0 then 0 else (r.pathEl (rd - 1)).start + 1

/-- ResolvedPos.End. -/
def ResolvedPos.endD (r : ResolvedPos) (d : Int) : Int :=
  let rd := r.rD d
  r.startD rd + (r.nodeAtD rd).contentSize

/-- ResolvedPos.TextOffset. -/
def ResolvedPos.textOffset (r : ResolvedPos) : Int :=
  r.pos - (r.path.getLastD defaultPathEl).start

/-- ResolvedPos.IndexAfter. -/
def ResolvedPos.indexAfter (r : ResolvedPos) (d : Int) : Nat :=
  let rd := r.rD d
  r.indexD rd + (if rd = r.depth ∧ r.textOffset = 0 then 1 else 0)

/-- ResolvedPos.Parent. -/
def ResolvedPos.parent (r : ResolvedPos) : Node := r.nodeAtD r.depth

/-- ResolvedPos.NodeAfter. -/
def ResolvedPos.nodeAfterR (r : ResolvedPos) : Except String (Option Node) :=
  let par := r.parent
  let index := r.indexD r.depth
  if index = par.content.length then .ok none
  else do
    let dOff := r.pos - (r.path.getLastD defaultPathEl).start
    let child ← fragChild par.content index
    if dOff > 0 then return some (child.cut dOff none) else return some child

/-- ResolvedPos.NodeBefore. -/
def ResolvedPos.nodeBeforeR (r : ResolvedPos) : Except String (Option Node) :=
  let index := r.indexD r.depth
  let dOff := r.pos - (r.path.getLastD defaultPathEl).start
  if dOff > 0 then do
    let child ← fragChild r.parent.content index
    return some (child.cut 0 (some dOff))
  else if index = 0 then .ok none
  else do
    let child ← fragChild r.parent.content (index - 1)
    return some child

/-- Descending loop of ResolvedPos.SharedDepth. -/
def sharedDepthAux (r : ResolvedPos) (pos : Int) : Nat → Int
  | 0 => 0
  | d + 1 =>
    if r.startD (d + 1) ≤ pos ∧ r.endD (d + 1) ≥ pos then ((d : Int) + 1)
    else sharedDepthAux r pos d

/-- ResolvedPos.SharedDepth. -/
def ResolvedPos.sharedDepth (r : ResolvedPos) (pos : Int) : Int :=
  sharedDepthAux r pos r.depth.toNat

/-- The descent loop of resolvePos (model/resolvedpos.go). -/
def resolveAux (pos : Int) (node : Node) (parentOffset start : Int)
    (path : List PathEl) : Except String ResolvedPos :=
  match fragFindIndex node.content parentOffset with
  | .error e => .error e
  | .ok (index, offset) =>
    let rem := parentOffset - offset
    let path' := path ++ [⟨node, index, start + offset⟩]
    if rem = 0 then .ok ⟨pos, path', parentOffset⟩
    else
      match h : node.content.get? index with
      | none => .error s!"Index {index} out of range"
      | some child =>
        if child.isText then .ok ⟨pos, path', parentOffset⟩
        else resolveAux pos child (rem - 1) (start + offset + 1) path'
termination_by nodeW node
decreasing_by exact nodeW_lt_of_mem_content (List.get?_mem h)

/-- resolvePos (model/resolvedpos.go): range check followed by the descent. -/
def resolvePos (doc : Node) (pos : Int) : Except String ResolvedPos :=
  if ¬(pos ≥ 0 ∧ pos ≤ doc.contentSize) then
    .error s!"Position {pos} out of range"
  else resolveAux pos doc pos 0 []

/-- One entry of the process-wide resolve cache. -/
structure REntry : Type where
  doc : Node
  res : ResolvedPos
deriving Repr, DecidableEq

/-- State of the resolve cache: a fixed ring of twelve optional entries plus
the round-robin write index (model/resolvedpos.go resolveCache and
resolveCachePos; the Go zero entries have a nil doc and are modelled by
none). -/
structure RCache : Type where
  entries : List (Option REntry)
  ringPos : Nat
deriving Repr, DecidableEq

/-- The initial cache: twelve empty slots. -/
def initialCache : RCache := ⟨List.replicate 12 none, 0⟩

/-- The lookup loop of resolvePosCached: matches on the document (pointer
equality in Go, structural equality here) and resolved position. -/
def cacheLookup (c : RCache) (doc : Node) (pos : Int) : Option ResolvedPos :=
  match c.entries.find? (fun e =>
    match e with
    | some en => decide (en.doc = doc) && decide (en.res.pos = pos)
    | none => false) with
  | some (some en) => some en.res
  | _ => none

/-- resolvePosCached (model/resolvedpos.go), as an explicit state-passing
function over the cache state. -/
def resolvePosCached (c : RCache) (doc : Node) (pos : Int) :
    Except String ResolvedPos × RCache :=
  match cacheLookup c doc pos with
  | some r => (.ok r, c)
  | none =>
    match resolvePos doc pos with
    | .error e => (.error e, c)
    | .ok r =>
      (.ok r, ⟨c.entries.set c.ringPos (some ⟨doc, r⟩),
               (c.ringPos + 1) % c.entries.length⟩)

/-- Modelled from the spec: Node.Resolve is missing from the sources (only
its callers are present); per spec section 4.3 it is the LRU-cached position
resolution, and per section 5 the cache must return results identical to
uncached resolution, so the wrapper is modelled by uncached resolvePos. -/
def Node.resolve (n : Node) (pos : Int) : Except String ResolvedPos :=
  resolvePos n pos

/-- Modelled from the spec: Node.resolveNoCache is missing from the sources
(replace.go calls it); it is uncached resolution. -/
def Node.resolveNoCache (n : Node) (pos : Int) : Except String ResolvedPos :=
  resolvePos n pos

/-! ## Content matching (model/content.go, model/schema.go) -/

/-- One DFA state (model/content.go ContentMatch): validEnd plus the ordered
edge list; edges are labelled by node type names (Go labels them with NodeType
pointers, unique per name within a schema). -/
structure CMState : Type where
  validEnd : Bool
  next : List (String × Nat)
deriving Repr, DecidableEq

/-- Arena of DFA states; index 0 is the shared EmptyContentMatch. -/
abbrev CMArena := List CMState

/-- Arena access (in-range at the call sites used below). -/
def cmGet (a : CMArena) (i : Nat) : CMState := a.getD i ⟨false, []⟩

/-- ContentMatch.MatchType: follow the edge labelled with the type. -/
def matchTypeIx (a : CMArena) (s : Nat) (t : String) : Option Nat :=
  ((cmGet a s).next.find? (fun e => e.1 = t)).map (·.2)

/-- ContentMatch.MatchFragment over a whole fragment. -/
def matchFragmentIx (a : CMArena) (s : Nat) (children : List Node) : Option Nat :=
  children.foldl
    (fun cur child =>
      match cur with
      | none => none
      | some ix => matchTypeIx a ix child.typ.name)
    (some s)

/-- NodeType.AllowsMarkType (model/schema.go). -/
def NodeTypeE.allowsMarkType (nt : NodeTypeE) (mtName : String) : Bool :=
  match nt.markSet with
  | none => true
  | some s => s.contains mtName

/-- NodeType.AllowsMarks (model/schema.go). -/
def NodeTypeE.allowsMarks (nt : NodeTypeE) (marks : List Mark) : Bool :=
  match nt.markSet with
  | none => true
  | some _ => marks.all (fun m => nt.allowsMarkType m.typ.name)

/-- NodeType.ValidContent (model/schema.go): the fragment must drive the
content automaton to a valid end, and every child's marks must be allowed. -/
def validContent (a : CMArena) (nt : NodeTypeE) (content : List Node) : Bool :=
  match matchFragmentIx a nt.cmIx content with
  | none => false
  | some ix =>
    (cmGet a ix).validEnd && content.all (fun child => nt.allowsMarks child.marks)

/-- ContentMatch.compatible (model/content.go): the two states share an edge
label. -/
def cmCompatible (a : CMArena) (i j : Nat) : Bool :=
  (cmGet a i).next.any (fun e => (cmGet a j).next.any (fun f => e.1 = f.1))

/-- NodeType.compatibleContent (model/schema.go). -/
def compatibleContent (a : CMArena) (nt other : NodeTypeE) : Bool :=
  nt = other || cmCompatible a nt.cmIx other.cmIx

/-! ## Slices and the replace algorithm (model/replace.go) -/

/-- Slice (model/replace.go). -/
structure Slice : Type where
  content : List Node
  openStart : Int
  openEnd : Int
deriving Repr, DecidableEq

/-- Slice.Size. -/
def Slice.size (s : Slice) : Int :=
  nodeListSize s.content - s.openStart - s.openEnd

/-- EmptySlice. -/
def emptySlice : Slice := ⟨[], 0, 0⟩

/-- insertInto (model/replace.go). The parent argument is nil at every call
site reachable from the sources (Slice.InsertAt passes nil and the recursion
passes nil), so the CanReplace guard is never taken and the parameter is
dropped; a findIndex error is collapsed into none exactly as Slice.InsertAt
does by discarding the error and testing the nil fragment. -/
def insertInto (content : List Node) (dist : Int) (insert : List Node) :
    Option (List Node) :=
  match fragFindIndex content dist with
  | .error _ => none
  | .ok (index, offset) =>
    let child? := fragMaybeChild content index
    if offset = dist ∨ (child?.map Node.isText).getD false then
      some (fragAppend (fragAppend (fragCut content 0 dist) insert)
        (fragCut content dist (nodeListSize content)))
    else
      match h : fragMaybeChild content index with
      | none => none
      | some child =>
        match insertInto child.content (dist - offset - 1) insert with
        | none => none
        | some inner => some (fragReplaceChild content index (child.copy inner))
termination_by nodeListW content
decreasing_by
  have hm : child ∈ content := List.get?_mem h
  have h1 := nodeW_le_of_mem hm
  cases child with
  | mk t₀ a₀ tx₀ c₀ m₀ =>
    simp only [nodeW, Node.content] at h1 ⊢
    omega

/-- Slice.InsertAt (model/replace.go). -/
def Slice.insertAt (s : Slice) (pos : Int) (fragment : List Node) : Option Slice :=
  match insertInto s.content (pos + s.openStart) fragment with
  | none => none
  | some content => some ⟨content, s.openStart, s.openEnd⟩

/-- checkJoin (model/replace.go). -/
def checkJoin (a : CMArena) (main sub : Node) : Except String Unit :=
  if compatibleContent a sub.typ main.typ then .ok ()
  else .error s!"Cannot join {sub.typ.name} onto {main.typ.name}"

/-- joinable (model/replace.go). -/
def joinable (a : CMArena) (before after : ResolvedPos) (depth : Int) :
    Except String Node := do
  let node := before.nodeAtD depth
  let _ ← checkJoin a node (after.nodeAtD depth)
  return node

/-- addNode (model/replace.go): append a node, merging a text node into a
trailing text node with the same markup. -/
def addNode (child : Node) (target : List Node) : List Node :=
  match target.getLast? with
  | some last =>
    if child.isText && child.sameMarkup last then
      target.dropLast ++
        [child.withText ((last.text.getD []) ++ (child.text.getD []))]
    else target ++ [child]
  | none => target ++ [child]

/-- The index loop of addRange. -/
def addRangeLoop (node : Node) (i endIndex : Nat) (target : List Node) :
    Except String (List Node) :=
  if i < endIndex then do
    let n ← fragChild node.content i
    addRangeLoop node (i + 1) endIndex (addNode n target)
  else .ok target
termination_by endIndex - i

/-- addRange (model/replace.go). Both arguments are never nil at the same
time at the source call sites. -/
def addRange (start? end? : Option ResolvedPos) (depth : Int)
    (target : List Node) : Except String (List Node) := do
  match (match end? with | some e => some e | none => start?) with
  | none => .error "addRange: no position"
  | some r =>
    let node := r.nodeAtD depth
    let endIndex := match end? with
      | none => node.content.length
      | some e => e.indexD depth
    let (startIndex, target) ←
      match start? with
      | none => pure ((0 : Nat), target)
      | some st =>
        let si := st.indexD depth
        if st.depth > depth then pure (si + 1, target)
        else if st.textOffset ≠ 0 then do
          let n? ← st.nodeAfterR
          match n? with
          | some n => pure (si + 1, addNode n target)
          | none => pure (si + 1, target)
        else pure (si, target)
    let target ← addRangeLoop node startIndex endIndex target
    match end? with
    | some e =>
      if e.depth = depth ∧ e.textOffset ≠ 0 then do
        let n? ← e.nodeBeforeR
        match n? with
        | some n => return addNode n target
        | none => return target
      else return target
    | none => return target

/-- replaceClose (model/replace.go close): validate and rebuild the parent. -/
def replaceClose (a : CMArena) (node : Node) (content : List Node) :
    Except String Node :=
  if validContent a node.typ content then .ok (node.copy content)
  else .error s!"Invalid content for node {node.typ.name}"

/-- replaceTwoWay (model/replace.go). -/
def replaceTwoWay (a : CMArena) (rf rt : ResolvedPos) (depth : Int) :
    Except String (List Node) := do
  let content ← addRange none (some rf) depth []
  if h : rf.depth > depth then do
    let typ ← joinable a rf rt (depth + 1)
    let replaced ← replaceTwoWay a rf rt (depth + 1)
    let closed ← replaceClose a typ replaced
    let content := addNode closed content
    addRange (some rt) none depth content
  else
    addRange (some rt) none depth content
termination_by (rf.depth - depth).toNat
decreasing_by omega

/-- replaceThreeWay (model/replace.go). The nil checks on the openStart and
openEnd joins of the Go code are unfolded into an explicit case tree; the
order of the fallible operations is exactly that of the source. -/
def replaceThreeWay (a : CMArena) (rf start end_ rt : ResolvedPos)
    (depth : Int) : Except String (List Node) :=
  if hf : rf.depth > depth then
    match joinable a rf start (depth + 1) with
    | .error e => .error e
    | .ok openStart =>
      if rt.depth > depth then
        match joinable a end_ rt (depth + 1) with
        | .error e => .error e
        | .ok openEnd => do
          let content ← addRange none (some rf) depth []
          if start.indexD depth = end_.indexD depth then do
            let _ ← checkJoin a openStart openEnd
            let replaced ← replaceThreeWay a rf start end_ rt (depth + 1)
            let closed ← replaceClose a openStart replaced
            let content := addNode closed content
            addRange (some rt) none depth content
          else do
            let replaced ← replaceTwoWay a rf start (depth + 1)
            let closed ← replaceClose a openStart replaced
            let content := addNode closed content
            let content ← addRange (some start) (some end_) depth content
            let replaced2 ← replaceTwoWay a end_ rt (depth + 1)
            let closed2 ← replaceClose a openEnd replaced2
            let content := addNode closed2 content
            addRange (some rt) none depth content
      else do
        let content ← addRange none (some rf) depth []
        let replaced ← replaceTwoWay a rf start (depth + 1)
        let closed ← replaceClose a openStart replaced
        let content := addNode closed content
        let content ← addRange (some start) (some end_) depth content
        addRange (some rt) none depth content
  else
    if rt.depth > depth then
      match joinable a end_ rt (depth + 1) with
      | .error e => .error e
      | .ok openEnd => do
        let content ← addRange none (some rf) depth []
        let content ← addRange (some start) (some end_) depth content
        let replaced2 ← replaceTwoWay a end_ rt (depth + 1)
        let closed2 ← replaceClose a openEnd replaced2
        let content := addNode closed2 content
        addRange (some rt) none depth content
    else do
      let content ← addRange none (some rf) depth []
      let content ← addRange (some start) (some end_) depth content
      addRange (some rt) none depth content
termination_by (rf.depth - depth).toNat
decreasing_by omega

/-- The wrapping loop of prepareSliceForReplace. -/
def prepWrap (along : ResolvedPos) (node : Node) (i : Int) : Node :=
  if i < 0 then node
  else prepWrap along ((along.nodeAtD i).copy [node]) (i - 1)
termination_by (i + 1).toNat
decreasing_by omega

/-- prepareSliceForReplace (model/replace.go). -/
def prepareSliceForReplace (slice : Slice) (along : ResolvedPos) :
    Except String (ResolvedPos × ResolvedPos) := do
  let extra := along.depth - slice.openStart
  let parent := along.nodeAtD extra
  let node := prepWrap along (parent.copy slice.content) (extra - 1)
  let start ← node.resolveNoCache (slice.openStart + extra)
  let end_ ← node.resolveNoCache (node.contentSize - slice.openEnd - extra)
  return (start, end_)

/-- replaceOuter (model/replace.go). -/
def replaceOuter (a : CMArena) (rf rt : ResolvedPos) (slice : Slice)
    (depth : Int) : Except String Node :=
  let index := rf.indexD depth
  let node := rf.nodeAtD depth
  if h : index = rt.indexD depth ∧ depth < rf.depth - slice.openStart then do
    let inner ← replaceOuter a rf rt slice (depth + 1)
    return node.copy (fragReplaceChild node.content index inner)
  else if nodeListSize slice.content = 0 then do
    let replaced ← replaceTwoWay a rf rt depth
    replaceClose a node replaced
  else if slice.openStart = 0 ∧ slice.openEnd = 0 ∧ rf.depth = depth ∧ rt.depth = depth then
    let parent := rf.parent
    let content :=
      fragAppend
        (fragAppend (fragCut parent.content 0 rf.parentOffset) slice.content)
        (fragCut parent.content rt.parentOffset (nodeListSize parent.content))
    replaceClose a parent content
  else do
    let (start, end_) ← prepareSliceForReplace slice rf
    let replaced ← replaceThreeWay a rf start end_ rt depth
    replaceClose a node replaced
termination_by (rf.depth - slice.openStart - depth).toNat
decreasing_by omega

/-- replace (model/replace.go): the two open-depth checks followed by
replaceOuter. -/
def replace (a : CMArena) (rf rt : ResolvedPos) (slice : Slice) :
    Except String Node :=
  if slice.openStart > rf.depth then
    .error "Inserted content deeper than insertion position"
  else if rf.depth - slice.openStart ≠ rt.depth - slice.openEnd then
    .error "Inconsistent open depths"
  else replaceOuter a rf rt slice 0

/-- Modelled from the spec: Node.Replace is missing from the sources (only
its caller transform.FromReplace is present); per spec section 2 it resolves
both endpoints and runs the replace algorithm of section 4.5. -/
def nodeReplace (a : CMArena) (n : Node) (from_ to_ : Int) (slice : Slice) :
    Except String Node := do
  let rf ← resolvePos n from_
  let rt ← resolvePos n to_
  replace a rf rt slice

/-- Modelled from the spec: Node.Slice is missing from the sources (only its
callers are present); per spec section 4.3 it resolves both ends, picks the
shared depth (includeParents is false at every call site in the sources),
cuts the content of the node at that depth and records the open depths; a
zero-length slice is the canonical empty slice. -/
def nodeSlice (n : Node) (from_ to_ : Int) : Except String Slice :=
  if from_ = to_ then .ok emptySlice
  else do
    let rf ← resolvePos n from_
    let rt ← resolvePos n to_
    let depth := rf.sharedDepth to_
    let start := rf.startD depth
    let node := rf.nodeAtD depth
    let content := fragCut node.content (from_ - start) (to_ - start)
    return ⟨content, rf.depth - depth, rt.depth - depth⟩

/-! ## Mark arithmetic (model/mark.go) and constructors (model/schema.go) -/

/-- The loop of Mark.AddToSet (model/mark.go), with the running copy and
placed flag made explicit; set is the whole original set, used when the Go
code returns it unchanged or copies a prefix. -/
def addToSetLoop (m : Mark) (set : List Mark) :
    List Mark → Nat → Option (List Mark) → Bool → List Mark
  | [], _, cpy, placed =>
    let c := cpy.getD set
    if placed then c else c ++ [m]
  | other :: rest, i, cpy, placed =>
    if m.eqb other then set
    else if m.typ.excludes other.typ then
      addToSetLoop m set rest (i + 1) (some (cpy.getD (set.take i))) placed
    else if other.typ.excludes m.typ then set
    else
      let (cpy1, placed1) :=
        if ¬placed ∧ other.typ.rank > m.typ.rank then
          (some ((cpy.getD (set.take i)) ++ [m]), true)
        else (cpy, placed)
      let cpy2 := match cpy1 with
        | some c => some (c ++ [other])
        | none => none
      addToSetLoop m set rest (i + 1) cpy2 placed1

/-- Mark.AddToSet (model/mark.go). -/
def markAddToSet (m : Mark) (set : List Mark) : List Mark :=
  addToSetLoop m set set 0 none false

/-- Mark.RemoveFromSet (model/mark.go): drop the first mark equal to m. -/
def markRemoveFromSet (m : Mark) : List Mark → List Mark
  | [] => []
  | other :: rest => if m.eqb other then rest else other :: markRemoveFromSet m rest

/-- Mark.IsInSet (model/mark.go). -/
def markIsInSet (m : Mark) (set : List Mark) : Bool :=
  set.any (fun other => m.eqb other)

/-- MarkSetFrom (model/mark.go) on a list: sort by mark type rank (Go uses
sort.Slice with a strict rank comparison; a stable merge sort is used here,
which agrees whenever ranks are distinct). -/
def markSetFrom (marks : List Mark) : List Mark :=
  marks.mergeSort (fun x y => x.typ.rank ≤ y.typ.rank)

/-- defaultAttrs (model/schema.go): none when some attribute lacks a default
(the Go function returns nil), otherwise the map of defaults. -/
def defaultAttrsOf (specs : List (String × Attribute)) : Option Attrs :=
  if specs.all (fun p => p.2.hasDefault) then
    some (specs.map (fun p => (p.1, p.2.default)))
  else none

/-- computeAttrs (model/schema.go): build the attribute map from the compiled
specs, panicking on a missing required attribute. Go iterates the spec map in
unspecified order; the association list order stands in for it. -/
def computeAttrsGo : List (String × Attribute) → Attrs → PE Attrs
  | [], _ => .ok []
  | (name, attr) :: rest, given =>
    let v? := attrsGet given name
    match v? with
    | some v =>
      match computeAttrsGo rest given with
      | .ok r => .ok ((name, v) :: r)
      | .err e => .err e
      | .crash e => .crash e
    | none =>
      if ¬attr.hasDefault then .crash s!"No value supplied for attribute {name}"
      else
        match computeAttrsGo rest given with
        | .ok r => .ok ((name, attr.default) :: r)
        | .err e => .err e
        | .crash e => .crash e

/-- NodeType.computeAttrs (model/schema.go): reuse the shared defaults when no
attributes are given and every attribute has a default. -/
def ntComputeAttrs (nt : NodeTypeE) (attrs : Attrs) : PE Attrs :=
  if attrs.length = 0 ∧ ((defaultAttrsOf nt.attrs).getD []).length > 0 then
    .ok ((defaultAttrsOf nt.attrs).getD [])
  else computeAttrsGo nt.attrs attrs

/-- FragmentFromArray (model/fragment.go): join adjacent text nodes with the
same markup (the Go code compares each node with its original predecessor,
whose markup the running merge preserves). -/
def fragmentFromArray (array : List Node) : List Node :=
  array.foldl
    (fun acc node =>
      match acc.getLast? with
      | some prev =>
        if node.isText && prev.sameMarkup node then
          acc.dropLast ++
            [node.withText ((prev.text.getD []) ++ (node.text.getD []))]
        else acc ++ [node]
      | none => acc ++ [node])
    []

/-- NodeType.Create (model/schema.go), with the content already given as a
list of nodes (FragmentFrom of a node array). A missing required attribute is
a Go panic from computeAttrs. -/
def nodeTypeCreate (nt : NodeTypeE) (attrs : Attrs) (content : List Node)
    (marks : List Mark) : PE Node :=
  if nt.isTextT then .err "NodeType.create can't construct text nodes"
  else
    match ntComputeAttrs nt attrs with
    | .crash e => .crash e
    | .err e => .err e
    | .ok computed =>
      .ok (.mk nt computed none (fragmentFromArray content) (markSetFrom marks))

/-- MarkType.Create (model/schema.go). -/
def markTypeCreate (mt : MarkTypeE) (attrs : Attrs) : PE Mark :=
  if mt.attrs.length = 0 ∧ mt.instanceAttrs.isSome then
    .ok ⟨mt, mt.instanceAttrs.getD []⟩
  else
    match computeAttrsGo mt.attrs attrs with
    | .crash e => .crash e
    | .err e => .err e
    | .ok computed => .ok ⟨mt, computed⟩

/-! ## The transform package -/

/-- The child loop of mapFragment (transform mark step file). Each child with
content is rebuilt from the recursively mapped fragment; inline children are
passed to the callback. -/
def mapFrChildren : List Node → (Node → Option Node → Node) → Option Node → List Node
  | [], _, _ => []
  | c :: cs, fn, parent =>
    let c1 :=
      if nodeListSize c.content > 0 then
        c.copy (fragmentFromArray (mapFrChildren c.content fn (some c)))
      else c
    let c2 := if c1.isInline then fn c1 parent else c1
    c2 :: mapFrChildren cs fn parent
termination_by l _ _ => nodeListW l
decreasing_by
  · cases c with
    | mk t₀ a₀ tx₀ c₀ m₀ =>
      simp only [nodeW, nodeListW, Node.content]
      omega
  · have := nodeW_pos c
    simp only [nodeListW]
    omega

/-- mapFragment (transform mark step file): map the children and rebuild the
fragment with FragmentFrom, which joins adjacent text nodes. -/
def mapFragmentGo (frag : List Node) (fn : Node → Option Node → Node)
    (parent : Option Node) : List Node :=
  fragmentFromArray (mapFrChildren frag fn parent)

/-- The outer loop of contentBetween (transform/replace_step.go): walk up
while the position sits at the end of its parent. -/
def cbLoop1 (dfrom : ResolvedPos) (dist depth : Int) : Int × Int :=
  if h : dist > 0 ∧ depth > 0 ∧
      dfrom.indexAfter depth = (dfrom.nodeAtD depth).content.length then
    cbLoop1 dfrom (dist - 1) (depth - 1)
  else (dist, depth)
termination_by depth.toNat
decreasing_by omega

/-- The descending loop of contentBetween. -/
def cbLoop2 : Option Node → Int → Bool
  | next?, dist =>
    if h : dist > 0 then
      match next? with
      | none => true
      | some next =>
        if next.isLeaf then true
        else cbLoop2 next.content.head? (dist - 1)
    else false
termination_by _ dist => dist.toNat
decreasing_by omega

/-- contentBetween (transform/replace_step.go): true when a non-boundary
token sits between the two positions (a resolution failure counts as true). -/
def contentBetween (doc : Node) (from_ to_ : Int) : Bool :=
  match doc.resolve from_ with
  | .error _ => true
  | .ok dfrom =>
    let (dist, depth) := cbLoop1 dfrom (to_ - from_) dfrom.depth
    if dist > 0 then
      cbLoop2 (fragMaybeChild (dfrom.nodeAtD depth).content (dfrom.indexAfter depth)) dist
    else false

/-- ReplaceStep (transform/replace_step.go); structureFlag is the Structure
field. -/
structure ReplaceStep : Type where
  from_ : Int
  to_ : Int
  slice : Slice
  structureFlag : Bool
deriving Repr, DecidableEq

/-- ReplaceAroundStep (transform/replace_step.go). -/
structure ReplaceAroundStep : Type where
  from_ : Int
  to_ : Int
  gapFrom : Int
  gapTo : Int
  slice : Slice
  insert : Int
  structureFlag : Bool
deriving Repr, DecidableEq

/-- AddMarkStep (transform mark step file). -/
structure AddMarkStep : Type where
  from_ : Int
  to_ : Int
  mark : Mark
deriving Repr, DecidableEq

/-- RemoveMarkStep (transform mark step file). -/
structure RemoveMarkStep : Type where
  from_ : Int
  to_ : Int
  mark : Mark
deriving Repr, DecidableEq

/-- SetAttrsStep (transform/set_attrs_step.go). -/
structure SetAttrsStep : Type where
  pos : Int
  attrs : Attrs
deriving Repr, DecidableEq

/-- The closed sum of concrete steps implementing the Step interface. -/
inductive Step : Type where
  | replace (s : ReplaceStep)
  | replaceAround (s : ReplaceAroundStep)
  | addMark (s : AddMarkStep)
  | removeMark (s : RemoveMarkStep)
  | setAttrs (s : SetAttrsStep)
deriving Repr, DecidableEq

/-- FromReplace (transform/step.go): run Node.Replace and convert an error
into a failed StepResult. -/
def fromReplace (a : CMArena) (doc : Node) (from_ to_ : Int) (slice : Slice) :
    PE Node :=
  match nodeReplace a doc from_ to_ slice with
  | .error e => .err e
  | .ok replaced => .ok replaced

/-- ReplaceStep.Apply (transform/replace_step.go). -/
def replaceStepApply (a : CMArena) (s : ReplaceStep) (doc : Node) : PE Node :=
  if s.structureFlag && contentBetween doc s.from_ s.to_ then
    .err "Structure replace would overwrite content"
  else fromReplace a doc s.from_ s.to_ s.slice

/-- ReplaceStep.Invert (transform/replace_step.go): an error from Node.Slice
is an explicit Go panic. -/
def replaceStepInvert (s : ReplaceStep) (doc : Node) : PE Step :=
  match nodeSlice doc s.from_ s.to_ with
  | .error e => .crash e
  | .ok slice => .ok (.replace ⟨s.from_, s.from_ + s.slice.size, slice, false⟩)

/-- ReplaceStep.Merge (transform/replace_step.go). -/
def replaceStepMerge (s : ReplaceStep) (other : Step) : Option Step :=
  match other with
  | .replace repl =>
    if repl.structureFlag || s.structureFlag then none
    else if s.from_ + s.slice.size = repl.from_ ∧ s.slice.openStart = 0 ∧
        repl.slice.openEnd = 0 then
      let slice :=
        if s.slice.size + repl.slice.size = 0 then emptySlice
        else ⟨fragAppend s.slice.content repl.slice.content,
              s.slice.openStart, repl.slice.openEnd⟩
      some (.replace ⟨s.from_, s.to_ + (repl.to_ - repl.from_), slice, s.structureFlag⟩)
    else if repl.to_ = s.from_ ∧ repl.slice.openStart = 0 ∧ s.slice.openEnd = 0 then
      let slice :=
        if s.slice.size + repl.slice.size = 0 then emptySlice
        else ⟨fragAppend repl.slice.content s.slice.content,
              repl.slice.openStart, s.slice.openEnd⟩
      some (.replace ⟨repl.from_, s.to_, slice, s.structureFlag⟩)
    else none
  | _ => none

/-- ReplaceAroundStep.Apply (transform/replace_step.go). -/
def replaceAroundApply (a : CMArena) (s : ReplaceAroundStep) (doc : Node) :
    PE Node :=
  if s.structureFlag &&
      (contentBetween doc s.from_ s.gapFrom || contentBetween doc s.gapTo s.to_) then
    .err "Structure gap-replace would overwrite content"
  else
    match nodeSlice doc s.gapFrom s.gapTo with
    | .error e => .err e
    | .ok gap =>
      if gap.openStart ≠ 0 ∧ gap.openEnd ≠ 0 then .err "Gap is not a flat range"
      else
        match s.slice.insertAt s.insert gap.content with
        | none => .err "Content does not fit in gap"
        | some inserted => fromReplace a doc s.from_ s.to_ inserted

/-- AddMarkStep.Apply (transform mark step file). -/
def addMarkApply (a : CMArena) (s : AddMarkStep) (doc : Node) : PE Node :=
  match nodeSlice doc s.from_ s.to_ with
  | .error e => .err e
  | .ok oldSlice =>
    match doc.resolve s.from_ with
    | .error e => .err e
    | .ok dFrom =>
      let parent := dFrom.nodeAtD (dFrom.sharedDepth s.to_)
      let fragment := mapFragmentGo oldSlice.content
        (fun node par =>
          if ¬ ((par.map (fun p => p.typ.allowsMarkType s.mark.typ.name)).getD false) then
            node
          else node.mark (markAddToSet s.mark node.marks))
        (some parent)
      fromReplace a doc s.from_ s.to_ ⟨fragment, oldSlice.openStart, oldSlice.openEnd⟩

/-- RemoveMarkStep.Apply (transform mark step file). -/
def removeMarkApply (a : CMArena) (s : RemoveMarkStep) (doc : Node) : PE Node :=
  match nodeSlice doc s.from_ s.to_ with
  | .error e => .err e
  | .ok oldSlice =>
    let fragment := mapFragmentGo oldSlice.content
      (fun node _ => node.mark (markRemoveFromSet s.mark node.marks)) none
    fromReplace a doc s.from_ s.to_ ⟨fragment, oldSlice.openStart, oldSlice.openEnd⟩

/-- The attribute merge of SetAttrsStep.Apply: the target node's attributes
overridden by the step's attributes (Go builds a fresh map; the key order of
the association list is the target's keys followed by the new keys). -/
def mergeAttrs (base over : Attrs) : Attrs :=
  base.map (fun p => (p.1, (attrsGet over p.1).getD p.2)) ++
    over.filter (fun p => (attrsGet base p.1).isNone)

/-- SetAttrsStep.Apply (transform/set_attrs_step.go). Node.NodeAt panics on
an out-of-range position (crash); a missing node is a failed result. -/
def setAttrsApply (a : CMArena) (s : SetAttrsStep) (doc : Node) : PE Node :=
  match doc.nodeAt s.pos with
  | .crash e => .crash e
  | .err e => .err e
  | .ok none => .err "No node at given position"
  | .ok (some target) =>
    let attrs := mergeAttrs target.attrs s.attrs
    match nodeTypeCreate target.typ attrs [] target.marks with
    | .crash e => .crash e
    | .err e => .err e
    | .ok newNode =>
      let leaf : Int := if target.isLeaf then 0 else 1
      fromReplace a doc s.pos (s.pos + 1) ⟨[newNode], 0, leaf⟩

/-- Step.Apply dispatch over the concrete steps. -/
def stepApply (a : CMArena) (s : Step) (doc : Node) : PE Node :=
  match s with
  | .replace str => replaceStepApply a str doc
  | .replaceAround str => replaceAroundApply a str doc
  | .addMark str => addMarkApply a str doc
  | .removeMark str => removeMarkApply a str doc
  | .setAttrs str => setAttrsApply a str doc

/-! ## JSON layer (transform/step.go and the FromJSON builders) -/

/-- JSON values (numbers restricted to integers, which is all the claims
exercise; Go decodes numbers as float64). -/
inductive JVal : Type where
  | null
  | jb (b : Bool)
  | ji (n : Int)
  | js (s : String)
  | ja (xs : List JVal)
  | jo (fields : List (String × JVal))
deriving Repr

/-- JSON object field lookup. -/
def jGet (o : List (String × JVal)) (k : String) : Option JVal :=
  (o.find? (fun p => p.1 = k)).map (·.2)

/-- Shallow conversion of a JSON value to an attribute value; the claims only
exercise scalar attribute values, so arrays and objects map to null. -/
def attrValOfJ : JVal → AttrVal
  | .null => .null
  | .jb b => .boolean b
  | .ji n => .int n
  | .js s => .str s
  | .ja _ => .null
  | .jo _ => .null

/-- Conversion of a JSON object to an attribute map. -/
def jObjToAttrs (fields : List (String × JVal)) : Attrs :=
  fields.map (fun p => (p.1, attrValOfJ p.2))

/-- The schema as the JSON builders see it. -/
structure SchemaE : Type where
  nodes : List NodeTypeE
  marks : List MarkTypeE
deriving Repr

/-- MarkFromJSON (model/mark.go): look the type name up in the schema and
create the mark. -/
def markFromJSON (sch : SchemaE) (raw : List (String × JVal)) : PE Mark :=
  let t := match jGet raw "type" with
    | some (.js s) => s
    | _ => ""
  match sch.marks.find? (fun mt => mt.name = t) with
  | none => .err s!"There is no mark {t} in this schema"
  | some typ =>
    let attrs := match jGet raw "attrs" with
      | some (.jo fields) => jObjToAttrs fields
      | _ => []
    markTypeCreate typ attrs

/-- UTF-8 encoding of one character. -/
def charUTF8 (c : Char) : List Nat :=
  let n := c.toNat
  if n < 128 then [n]
  else if n < 2048 then [192 + n / 64, 128 + n % 64]
  else if n < 65536 then [224 + n / 4096, 128 + (n / 64) % 64, 128 + n % 64]
  else [240 + n / 262144, 128 + (n / 4096) % 64, 128 + (n / 64) % 64, 128 + n % 64]

/-- Bytes of a string (UTF-8), the representation of Go strings here. -/
def strBytes (s : String) : List Nat := (s.toList.map charUTF8).flatten

/-- Decode a list of JSON marks. -/
def marksFromJSON (sch : SchemaE) : List JVal → PE (List Mark)
  | [] => .ok []
  | x :: xs =>
    match x with
    | .jo fields =>
      match markFromJSON sch fields with
      | .err e => .err e
      | .crash e => .crash e
      | .ok m =>
        match marksFromJSON sch xs with
        | .err e => .err e
        | .crash e => .crash e
        | .ok ms => .ok (m :: ms)
    | _ => .err "Invalid mark data"

mutual
/-- Modelled from the spec: NodeFromJSON is missing from the sources (only
its callers are present). Per spec sections 4.3 and 6.1 a node is
(type, attrs?, content?, marks?, text?); the type resolves in the schema,
text nodes take the text string, other nodes take the decoded content with
attributes completed by the type's defaults. The fuel argument bounds the
recursion depth; the theorems below only exercise fuel-independent paths. -/
def nodeFromJSON (fuel : Nat) (sch : SchemaE) (v : JVal) : PE Node :=
  match fuel with
  | 0 => .err "Recursion limit exceeded in Node.fromJSON"
  | f + 1 =>
    match v with
    | .jo fields =>
      match jGet fields "type" with
      | some (.js tname) =>
        match sch.nodes.find? (fun nt => nt.name = tname) with
        | none => .err s!"Unknown node type: {tname}"
        | some nt =>
          match (match jGet fields "marks" with
                 | some (.ja ms) => marksFromJSON sch ms
                 | _ => .ok []) with
          | .err e => .err e
          | .crash e => .crash e
          | .ok marks =>
            if nt.isTextT then
              match jGet fields "text" with
              | some (.js t) => .ok (.mk nt [] (some (strBytes t)) [] marks)
              | _ => .err "Invalid text node in JSON"
            else
              match fragmentFromJSON f sch (jGet fields "content") with
              | .err e => .err e
              | .crash e => .crash e
              | .ok content =>
                let given := match jGet fields "attrs" with
                  | some (.jo af) => jObjToAttrs af
                  | _ => []
                match ntComputeAttrs nt given with
                | .err e => .err e
                | .crash e => .crash e
                | .ok attrs => .ok (.mk nt attrs none content marks)
      | _ => .err "Invalid input for Node.fromJSON"
    | _ => .err "Invalid input for Node.fromJSON"
termination_by fuel

/-- Modelled from the spec: FragmentFromJSON is missing from the sources; per
spec section 6.1 the content field is a list of nodes, defaulting to empty. -/
def fragmentFromJSON (fuel : Nat) (sch : SchemaE) (v : Option JVal) :
    PE (List Node) :=
  match fuel with
  | 0 => .err "Recursion limit exceeded in Fragment.fromJSON"
  | f + 1 =>
    match v with
    | none => .ok []
    | some .null => .ok []
    | some (.ja xs) => nodesFromJSON f sch xs
    | some _ => .err "Invalid input for Fragment.fromJSON"
termination_by fuel

/-- Decode a list of JSON nodes. -/
def nodesFromJSON (fuel : Nat) (sch : SchemaE) (l : List JVal) : PE (List Node) :=
  match fuel with
  | 0 => .err "Recursion limit exceeded in Fragment.fromJSON"
  | f + 1 =>
    match l with
    | [] => .ok []
    | x :: xs =>
      match nodeFromJSON f sch x with
      | .err e => .err e
      | .crash e => .crash e
      | .ok n =>
        match nodesFromJSON f sch xs with
        | .err e => .err e
        | .crash e => .crash e
        | .ok ns => .ok (n :: ns)
termination_by fuel
end

/-- Recursion budget used by the JSON decoders; large enough for any input
the theorems below exercise (they only use the fuel-independent paths). -/
def jsonFuel : Nat := 1000000

/-- SliceFromJSON (model/replace.go): nil or a non-object decodes to the
empty slice. -/
def sliceFromJSON (sch : SchemaE) (raw : Option (List (String × JVal))) :
    PE Slice :=
  match raw with
  | none => .ok emptySlice
  | some data =>
    let openStart := match jGet data "openStart" with
      | some (.ji n) => n
      | _ => 0
    let openEnd := match jGet data "openEnd" with
      | some (.ji n) => n
      | _ => 0
    match fragmentFromJSON jsonFuel sch (jGet data "content") with
    | .err e => .err e
    | .crash e => .crash e
    | .ok frag => .ok ⟨frag, openStart, openEnd⟩

/-- ReplaceStepFromJSON (transform/replace_step.go). -/
def replaceStepFromJSON (sch : SchemaE) (obj : List (String × JVal)) : PE Step :=
  match jGet obj "from" with
  | some (.ji from_) =>
    match jGet obj "to" with
    | some (.ji to_) =>
      let raw := match jGet obj "slice" with
        | some (.jo fields) => some fields
        | _ => none
      match sliceFromJSON sch raw with
      | .err e => .err e
      | .crash e => .crash e
      | .ok slice =>
        let structureFlag := match jGet obj "structure" with
          | some (.jb b) => b
          | _ => false
        .ok (.replace ⟨from_, to_, slice, structureFlag⟩)
    | _ => .err "Invalid input for ReplaceStep.fromJSON"
  | _ => .err "Invalid input for ReplaceStep.fromJSON"

/-- ReplaceAroundStepFromJSON (transform/replace_step.go). -/
def replaceAroundStepFromJSON (sch : SchemaE) (obj : List (String × JVal)) :
    PE Step :=
  match jGet obj "from", jGet obj "to", jGet obj "gapFrom", jGet obj "gapTo",
        jGet obj "insert" with
  | some (.ji from_), some (.ji to_), some (.ji gapFrom), some (.ji gapTo),
    some (.ji insert) =>
    let raw := match jGet obj "slice" with
      | some (.jo fields) => some fields
      | _ => none
    match sliceFromJSON sch raw with
    | .err e => .err e
    | .crash e => .crash e
    | .ok slice =>
      let structureFlag := match jGet obj "structure" with
        | some (.jb b) => b
        | _ => false
      .ok (.replaceAround ⟨from_, to_, gapFrom, gapTo, slice, insert, structureFlag⟩)
  | _, _, _, _, _ => .err "Invalid input for ReplaceAroundStep.fromJSON"

/-- AddMarkStepFromJSON (transform mark step file): from and to silently
default to zero when absent or of the wrong type. -/
def addMarkStepFromJSON (sch : SchemaE) (obj : List (String × JVal)) : PE Step :=
  match jGet obj "mark" with
  | some (.jo rawMark) =>
    match markFromJSON sch rawMark with
    | .err e => .err e
    | .crash e => .crash e
    | .ok mark =>
      let from_ := match jGet obj "from" with
        | some (.ji n) => n
        | _ => 0
      let to_ := match jGet obj "to" with
        | some (.ji n) => n
        | _ => 0
      .ok (.addMark ⟨from_, to_, mark⟩)
  | _ => .err "Invalid input for AddMarkStep.fromJSON"

/-- RemoveMarkStepFromJSON (transform mark step file). -/
def removeMarkStepFromJSON (sch : SchemaE) (obj : List (String × JVal)) :
    PE Step :=
  match jGet obj "mark" with
  | some (.jo rawMark) =>
    match markFromJSON sch rawMark with
    | .err e => .err e
    | .crash e => .crash e
    | .ok mark =>
      let from_ := match jGet obj "from" with
        | some (.ji n) => n
        | _ => 0
      let to_ := match jGet obj "to" with
        | some (.ji n) => n
        | _ => 0
      .ok (.removeMark ⟨from_, to_, mark⟩)
  | _ => .err "Invalid input for RemoveMarkStep.fromJSON"

/-- SetAttrsStepFromJSON (transform/set_attrs_step.go). Note that this
builder exists in the sources but is not registered in stepsByID. -/
def setAttrsStepFromJSON (_sch : SchemaE) (obj : List (String × JVal)) :
    PE Step :=
  match jGet obj "attrs" with
  | some (.jo fields) =>
    let pos := match jGet obj "pos" with
      | some (.ji n) => n
      | _ => 0
    .ok (.setAttrs ⟨pos, jObjToAttrs fields⟩)
  | _ => .err "Invalid input for SetAttrsStep.fromJSON"

/-- stepsByID (transform/step.go): the registry of step builders. The source
registers exactly these four entries; setAttrs and tableSort are not
registered. -/
def stepsByID : List (String × (SchemaE → List (String × JVal) → PE Step)) :=
  [("addMark", addMarkStepFromJSON),
   ("removeMark", removeMarkStepFromJSON),
   ("replace", replaceStepFromJSON),
   ("replaceAround", replaceAroundStepFromJSON)]

/-- StepFromJSON (transform/step.go): dispatch on the stepType string. -/
def stepFromJSON (sch : SchemaE) (obj : List (String × JVal)) : PE Step :=
  if obj.length = 0 then .err "Invalid input from Step.fromJSON"
  else
    match jGet obj "stepType" with
    | some (.js st) =>
      match (stepsByID.find? (fun p => p.1 = st)).map (·.2) with
      | some b => b sch obj
      | none => .err s!"No step {st} defined"
    | _ => .err "Invalid input from Step.fromJSON"

/-! ## Content-expression tokenizer and parser (model/content.go) -/

/-- Expression AST (model/content.go exprType); nameE carries the resolved
node type's name. -/
inductive ExprT : Type where
  | choice (exprs : List ExprT)
  | seqE (exprs : List ExprT)
  | plus (e : ExprT)
  | star (e : ExprT)
  | opt (e : ExprT)
  | range (min max : Int) (e : ExprT)
  | nameE (v : String)
deriving Repr

/-- strings.Fields: split around runs of whitespace, no empty fields
(written as a structural fold over the character list). -/
def goFields (s : String) : List String :=
  let isWS := fun (c : Char) => c = ' ' ∨ c = '\t' ∨ c = '\n' ∨ c = '\r'
  let step := fun (acc : List String × List Char) (c : Char) =>
    let (toks, cur) := acc
    if isWS c then (if cur.isEmpty then toks else toks ++ [⟨cur⟩], ([] : List Char))
    else (toks, cur ++ [c])
  let (toks, cur) := s.toList.foldl step ([], [])
  if cur.isEmpty then toks else toks ++ [⟨cur⟩]

/-- The token stream (model/content.go tokenStream), state-passing. -/
structure TS : Type where
  str : String
  nodeTypes : List NodeTypeE
  inline : Option Bool
  pos : Nat
  tokens : List String
deriving Repr

/-- newTokenStream (model/content.go): strings.Fields with trims of an empty
first and last token (the TODO in the source notes that the JS code splits on
word boundaries instead). -/
def newTokenStream (str : String) (nodeTypes : List NodeTypeE) : TS :=
  let tokens := goFields str
  let tokens :=
    if tokens.length > 0 ∧ tokens.getLast? = some "" then tokens.dropLast else tokens
  let tokens :=
    if tokens.length > 0 ∧ tokens.head? = some "" then tokens.tail else tokens
  ⟨str, nodeTypes, none, 0, tokens⟩

/-- tokenStream.next. -/
def tsNext (ts : TS) : Option String := ts.tokens.get? ts.pos

/-- tokenStream.eat: note that at the end of the stream (next is nil) the
source falls through to pos++ and returns true. -/
def tsEat (ts : TS) (tok : String) : Bool × TS :=
  match tsNext ts with
  | some s =>
    if s ≠ tok then (false, ts) else (true, { ts with pos := ts.pos + 1 })
  | none => (true, { ts with pos := ts.pos + 1 })

/-- Go %q quoting for the plain ASCII strings used here. -/
def goQuote (s : String) : String := "\"" ++ s ++ "\""

/-- tokenStream.err: message followed by the quoted expression. -/
def tsErr (ts : TS) (msg : String) : String :=
  msg ++ " (in content expression " ++ goQuote ts.str ++ ")"

/-- isWordCharacters (model/content.go): digits, ASCII letters and
underscore only (true on the empty string). -/
def isWordCharacters (s : String) : Bool :=
  s.toList.all (fun c =>
    ('0' ≤ c ∧ c ≤ '9') ∨ ('a' ≤ c ∧ c ≤ 'z') ∨ ('A' ≤ c ∧ c ≤ 'Z') ∨ c = '_')

/-- strconv.Atoi on the subset exercised here: an optional sign before
decimal digits. -/
def goAtoi (s : String) : Except Unit Int :=
  let core := fun (l : List Char) =>
    if l.isEmpty then Except.error ()
    else if l.all (fun c => '0' ≤ c ∧ c ≤ '9') then
      Except.ok (l.foldl (fun acc c => acc * 10 + ((c.toNat : Int) - 48)) 0)
    else Except.error ()
  match s.toList with
  | '-' :: rest => (core rest).map (fun n => -n)
  | '+' :: rest => core rest
  | l => core l

/-- resolveName (model/content.go): a node type by name, or all members of
the group (the Go map iteration order is replaced by the schema list
order). -/
def resolveName (ts : TS) (name : String) : Except String (List NodeTypeE) :=
  match ts.nodeTypes.find? (fun t => t.name = name) with
  | some t => .ok [t]
  | none =>
    let result := ts.nodeTypes.filter (fun t => t.groups.contains name)
    if result.length = 0 then
      .error (tsErr ts ("No node or type " ++ goQuote name ++ " found"))
    else .ok result

/-- parseNum (model/content.go); note that the source does not advance the
stream position. -/
def parseNum (ts : TS) : Except String Int :=
  match tsNext ts with
  | none => .error (tsErr ts "Expected number, got nil")
  | some s =>
    match goAtoi s with
    | .error _ => .error (tsErr ts ("Expected number, got " ++ goQuote s))
    | .ok n => .ok n

/-- The per-type fold of parseExprAtom: record or check the inline flag and
collect name expressions. -/
def atomTypesFold (ts : TS) : List NodeTypeE → Except String (TS × List ExprT)
  | [] => .ok (ts, [])
  | t :: rest =>
    let inl := t.isInline
    match ts.inline with
    | none =>
      match atomTypesFold { ts with inline := some inl } rest with
      | .ok (ts2, es) => .ok (ts2, .nameE t.name :: es)
      | .error e => .error e
    | some i =>
      if i ≠ inl then .error (tsErr ts "Mixing inline and block content")
      else
        match atomTypesFold ts rest with
        | .ok (ts2, es) => .ok (ts2, .nameE t.name :: es)
        | .error e => .error e

/-- parseExprRange (model/content.go); parseNum does not advance the
position, faithfully to the source. -/
def parseExprRange (ts : TS) (expr : ExprT) : Except String (ExprT × TS) :=
  match parseNum ts with
  | .error e => .error e
  | .ok minv =>
    let (b, ts) := tsEat ts ","
    match (if b then
            (match tsNext ts with
             | some st =>
               if st ≠ "\x7d" then (parseNum ts).map (fun m => (m, ts))
               else .ok ((-1 : Int), ts)
             | none => .ok ((-1 : Int), ts))
           else .ok (minv, ts) : Except String (Int × TS)) with
    | .error e => .error e
    | .ok (maxv, ts) =>
      match tsEat ts "\x7d" with
      | (true, ts1) => .ok (.range minv maxv expr, ts1)
      | (false, _) => .error (tsErr ts "Unclosed braced range")

mutual
/-- parseExpr (model/content.go): alternatives separated by the pipe token. -/
def parseExpr (fuel : Nat) (ts : TS) : Except String (ExprT × TS) :=
  match fuel with
  | 0 => .error "parser fuel exhausted"
  | f + 1 => parseExprLoop f ts []

/-- The alternatives loop of parseExpr. -/
def parseExprLoop (fuel : Nat) (ts : TS) (exprs : List ExprT) :
    Except String (ExprT × TS) :=
  match fuel with
  | 0 => .error "parser fuel exhausted"
  | f + 1 =>
    match parseExprSeq f ts with
    | .error e => .error e
    | .ok (sq, ts) =>
      let exprs := exprs ++ [sq]
      let (b, ts) := tsEat ts "|"
      if b then parseExprLoop f ts exprs
      else .ok (if exprs.length = 1 then exprs.headD (.seqE []) else .choice exprs, ts)

/-- parseExprSeq (model/content.go). -/
def parseExprSeq (fuel : Nat) (ts : TS) : Except String (ExprT × TS) :=
  match fuel with
  | 0 => .error "parser fuel exhausted"
  | f + 1 => parseExprSeqLoop f ts []

/-- The element loop of parseExprSeq. Note the source continues the loop
when the next token is nil, a closing paren or a pipe, and breaks
otherwise. -/
def parseExprSeqLoop (fuel : Nat) (ts : TS) (exprs : List ExprT) :
    Except String (ExprT × TS) :=
  match fuel with
  | 0 => .error "parser fuel exhausted"
  | f + 1 =>
    match parseExprSubscript f ts with
    | .error e => .error e
    | .ok (sub, ts) =>
      let exprs := exprs ++ [sub]
      let finish : Except String (ExprT × TS) :=
        .ok (if exprs.length = 1 then exprs.headD (.seqE []) else .seqE exprs, ts)
      match tsNext ts with
      | some st => if st ≠ ")" ∧ st ≠ "|" then finish else parseExprSeqLoop f ts exprs
      | none => parseExprSeqLoop f ts exprs

/-- parseExprSubscript (model/content.go). -/
def parseExprSubscript (fuel : Nat) (ts : TS) : Except String (ExprT × TS) :=
  match fuel with
  | 0 => .error "parser fuel exhausted"
  | f + 1 =>
    match parseExprAtom f ts with
    | .error e => .error e
    | .ok (expr, ts) => parseExprSubLoop f ts expr

/-- The postfix-operator loop of parseExprSubscript. -/
def parseExprSubLoop (fuel : Nat) (ts : TS) (expr : ExprT) :
    Except String (ExprT × TS) :=
  match fuel with
  | 0 => .error "parser fuel exhausted"
  | f + 1 =>
    match tsEat ts "+" with
    | (true, ts1) => parseExprSubLoop f ts1 (.plus expr)
    | (false, _) =>
      match tsEat ts "*" with
      | (true, ts1) => parseExprSubLoop f ts1 (.star expr)
      | (false, _) =>
        match tsEat ts "?" with
        | (true, ts1) => parseExprSubLoop f ts1 (.opt expr)
        | (false, _) =>
          match tsEat ts "\x7b" with
          | (true, ts1) =>
            match parseExprRange ts1 expr with
            | .error e => .error e
            | .ok (e2, ts2) => parseExprSubLoop f ts2 e2
          | (false, _) => .ok (expr, ts)

/-- parseExprAtom (model/content.go): a parenthesised expression or a name
made of word characters; anything else is an unexpected token. -/
def parseExprAtom (fuel : Nat) (ts : TS) : Except String (ExprT × TS) :=
  match fuel with
  | 0 => .error "parser fuel exhausted"
  | f + 1 =>
    match tsEat ts "(" with
    | (true, ts1) =>
      match parseExpr f ts1 with
      | .error e => .error e
      | .ok (expr, ts2) =>
        match tsEat ts2 ")" with
        | (true, ts3) => .ok (expr, ts3)
        | (false, _) => .error (tsErr ts2 "Missing closing paren")
    | (false, _) =>
      match tsNext ts with
      | some s0 =>
        if isWordCharacters s0 then
          match tsNext ts with
          | none => .error (tsErr ts "Missing token")
          | some s =>
            match resolveName ts s with
            | .error e => .error e
            | .ok types =>
              match atomTypesFold ts types with
              | .error e => .error e
              | .ok (ts2, exprs) =>
                let ts3 := { ts2 with pos := ts2.pos + 1 }
                .ok (if exprs.length = 1 then exprs.headD (.seqE []) else .choice exprs, ts3)
        else .error (tsErr ts ("Unexpected token " ++ goQuote s0))
      | none => .error (tsErr ts "Unexpected token nil")
end

/-- Modelled from the spec: the tokenizer of spec section 4.1 splits the
expression on every boundary between word characters and non-word characters
and drops empty tokens; whitespace only separates tokens. Used to compare
the source tokenizer with the specified one. -/
def specTokenize (s : String) : List String :=
  let isW := fun (c : Char) =>
    ('0' ≤ c ∧ c ≤ '9') ∨ ('a' ≤ c ∧ c ≤ 'z') ∨ ('A' ≤ c ∧ c ≤ 'Z') ∨ c = '_'
  let step := fun (acc : List String × String) (c : Char) =>
    let (toks, cur) := acc
    if isW c then (toks, cur.push c)
    else
      let toks := if cur ≠ "" then toks ++ [cur] else toks
      if c = ' ' ∨ c = '\t' ∨ c = '\n' ∨ c = '\r' then (toks, "")
      else (toks ++ [c.toString], "")
  let (toks, cur) := s.toList.foldl step ([], "")
  if cur ≠ "" then toks ++ [cur] else toks

/-! ## Concrete schema for the scenarios (schema/basic, restricted to the
node types the claims exercise) -/

/-- Modelled from the spec: the compiled content-match automata for the
content expressions of the basic schema nodes used by the scenarios. The
exported ParseContentMatch called by NewSchema is missing from the sources,
so the automata are written out following spec section 4.1: index 0 is
EmptyContentMatch (empty expression), indices 1 and 2 are the automaton of
the expression block+ (one or more block-group nodes, here paragraph), and
index 3 is the automaton of inline* (any number of inline nodes, here
text). -/
def cmArenaBasic : CMArena :=
  [⟨true, []⟩,
   ⟨false, [("paragraph", 2)]⟩,
   ⟨true, [("paragraph", 2)]⟩,
   ⟨true, [("text", 3)]⟩]

/-- The doc node type: content block+, no marks allowed (NewSchema gives a
non-inline node without a marks expression the empty mark set). -/
def docType : NodeTypeE := ⟨"doc", false, [], 1, [], some []⟩

/-- The paragraph node type: content inline*, group block, all marks
allowed (inline content without a marks expression). -/
def paragraphType : NodeTypeE := ⟨"paragraph", false, ["block"], 3, [], none⟩

/-- The text node type: group inline, leaf (empty content expression). -/
def textType : NodeTypeE := ⟨"text", false, ["inline"], 0, [], some []⟩

/-- A text node as Schema.Text builds it (default attributes, no marks). -/
def txt (s : String) : Node := .mk textType [] (some (strBytes s)) [] []

/-- A paragraph node. -/
def para (children : List Node) : Node := .mk paragraphType [] none children []

/-- A document node. -/
def docN (children : List Node) : Node := .mk docType [] none children []

/-- The doc(p("hello")) document of scenario S7. -/
def docHello : Node := docN [para [txt "hello"]]

set_option maxRecDepth 8000

/-- The horizontal_rule node type of the basic schema: a non-text leaf. -/
def hrType : NodeTypeE := ⟨"horizontal_rule", false, ["block"], 0, [], some []⟩

/-- A horizontal rule node. -/
def hrN : Node := .mk hrType [] none [] []

/-- C2: the claim states that the NodeSize of a text node is its length in
UTF-16 code units, so that the single code point of the two-code-unit
character at U+1F465 has size 2. The source (model/node.go NodeSize) returns
len of the Go string, which is the UTF-8 byte length: the text node built
from that character has NodeSize 4, not 2. The non-text rules of the claim
(non-text leaf 1, non-leaf 2 + content size) do hold and are recorded on
concrete nodes alongside. -/
theorem c2_nodeSize_is_utf8_byte_length :
    (txt "👥").nodeSize = 4 ∧ ¬ (txt "👥").nodeSize = 2 ∧
    hrN.nodeSize = 1 ∧
    (para [txt "hi"]).nodeSize = 2 + nodeListSize (para [txt "hi"]).content := by
  refine ⟨by decide, by decide, by decide, by decide⟩

/-- C5 counterexample: two flat-adjacent ReplaceSteps whose touching seam
sides are both open (the first step's slice has openEnd 1, the second's has
openStart 1) are nevertheless merged by ReplaceStep.Merge, because the
source tests s.Slice.OpenStart and other.Slice.OpenEnd, the outer sides,
instead of the seam sides named by the claim. -/
theorem c5_counterexample_merges_open_seam :
    (replaceStepMerge ⟨0, 0, ⟨[para []], 0, 1⟩, false⟩
        (.replace ⟨1, 1, ⟨[para []], 1, 0⟩, false⟩)).isSome = true ∧
    (0 : Int) + (⟨[para []], 0, 1⟩ : Slice).size = 1 ∧
    (⟨[para []], 0, 1⟩ : Slice).openEnd = 1 ∧
    (⟨[para []], 1, 0⟩ : Slice).openStart = 1 := by
  refine ⟨by decide, by decide, by decide, by decide⟩

/-- C5 amended: ReplaceStep.Merge returns no step when either side has
structure set, and merges a pair with s directly followed by other
(s.From + s.Slice.Size() = other.From) exactly when s.Slice.OpenStart = 0
and other.Slice.OpenEnd = 0 hold, the outer open sides, rather than the
seam sides s.Slice.OpenEnd and other.Slice.OpenStart; symmetrically the
other.To = s.From branch requires other.Slice.OpenStart = 0 and
s.Slice.OpenEnd = 0. Non-replace steps never merge. -/
theorem c5_merge_checks_outer_open_sides (s o : ReplaceStep) :
    (s.structureFlag = true ∨ o.structureFlag = true →
      replaceStepMerge s (.replace o) = none) ∧
    (s.structureFlag = false → o.structureFlag = false →
      s.from_ + s.slice.size = o.from_ →
      s.slice.openStart = 0 → o.slice.openEnd = 0 →
      (replaceStepMerge s (.replace o)).isSome = true) ∧
    (s.structureFlag = false → o.structureFlag = false →
      ¬ (s.from_ + s.slice.size = o.from_ ∧ s.slice.openStart = 0 ∧
         o.slice.openEnd = 0) →
      ¬ (o.to_ = s.from_ ∧ o.slice.openStart = 0 ∧ s.slice.openEnd = 0) →
      replaceStepMerge s (.replace o) = none) ∧
    (replaceStepMerge s (.addMark ⟨0, 0, ⟨⟨"", 0, [], [], none⟩, []⟩⟩) = none) := by
  refine ⟨?_, ?_, ?_, ?_⟩
  · intro h
    simp only [replaceStepMerge]
    rcases h with h | h <;> simp [h]
  · intro hs ho hadj h1 h2
    simp only [replaceStepMerge, hs, ho]
    simp [hadj, h1, h2]
  · intro hs ho hfirst hsecond
    simp only [replaceStepMerge, hs, ho]
    simp only [Bool.or_self, Bool.false_eq_true, if_false]
    rw [if_neg hfirst, if_neg hsecond]
  · rfl

/-- C5 witness: the amended theorem applied to concrete steps. -/
theorem c5_witness :
    replaceStepMerge ⟨0, 0, emptySlice, true⟩ (.replace ⟨0, 0, emptySlice, false⟩)
        = none ∧
    (replaceStepMerge ⟨2, 3, emptySlice, false⟩ (.replace ⟨2, 2, ⟨[txt "x"], 0, 0⟩, false⟩)).isSome
        = true := by
  constructor
  · exact (c5_merge_checks_outer_open_sides ⟨0, 0, emptySlice, true⟩
      ⟨0, 0, emptySlice, false⟩).1 (Or.inl rfl)
  · exact (c5_merge_checks_outer_open_sides ⟨2, 3, emptySlice, false⟩
      ⟨2, 2, ⟨[txt "x"], 0, 0⟩, false⟩).2.1 rfl rfl (by decide) rfl rfl

/-- The em mark type as NewSchema compiles it from the basic schema: first
mark rank is its list index, no attributes, excluded defaults to the type
itself. -/
def emMarkType : MarkTypeE := ⟨"em", 0, [], ["em"], none⟩

/-- The schema record used by the JSON builders in the claims. -/
def schemaEm : SchemaE := ⟨[docType, paragraphType, textType], [emMarkType]⟩

/-- C4 counterexample: the claim states that StepFromJSON returns a
SetAttrsStep for the stepType setAttrs, but stepsByID (transform/step.go)
registers only addMark, removeMark, replace and replaceAround, so setAttrs
falls into the unknown-type failure. -/
theorem c4_counterexample_setAttrs_unregistered :
    stepFromJSON schemaEm
        [("stepType", .js "setAttrs"), ("pos", .ji 1), ("attrs", .jo [])]
      = .err "No step setAttrs defined" := by decide

/-- C4 amended: StepFromJSON dispatches on the stepType string for exactly
the four registered types replace, replaceAround, addMark and removeMark,
and fails with the message No step X defined for every other stepType,
including setAttrs (SetAttrsStepFromJSON exists in the sources but is not in
the stepsByID registry). -/
theorem c4_stepFromJSON_dispatch (st : String)
    (hst : st ∉ ["addMark", "removeMark", "replace", "replaceAround"])
    (obj : List (String × JVal)) (hget : jGet obj "stepType" = some (.js st))
    (hlen : obj.length ≠ 0) :
    stepFromJSON schemaEm obj = .err ("No step " ++ st ++ " defined") ∧
    stepFromJSON schemaEm [("stepType", .js "replace"), ("from", .ji 1), ("to", .ji 2)]
      = .ok (.replace ⟨1, 2, emptySlice, false⟩) ∧
    stepFromJSON schemaEm [("stepType", .js "replaceAround"), ("from", .ji 0),
        ("to", .ji 4), ("gapFrom", .ji 1), ("gapTo", .ji 3), ("insert", .ji 1)]
      = .ok (.replaceAround ⟨0, 4, 1, 3, emptySlice, 1, false⟩) ∧
    stepFromJSON schemaEm [("stepType", .js "addMark"), ("from", .ji 1),
        ("to", .ji 2), ("mark", .jo [("type", .js "em")])]
      = .ok (.addMark ⟨1, 2, ⟨emMarkType, []⟩⟩) ∧
    stepFromJSON schemaEm [("stepType", .js "removeMark"), ("from", .ji 1),
        ("to", .ji 2), ("mark", .jo [("type", .js "em")])]
      = .ok (.removeMark ⟨1, 2, ⟨emMarkType, []⟩⟩) := by
  simp only [List.mem_cons, List.mem_singleton, not_or] at hst
  obtain ⟨h1, h2, h3, h4, -⟩ := hst
  refine ⟨?_, by decide, by decide, by decide, by decide⟩
  have e1 : (("addMark" : String) = st) = False := eq_false (fun h => h1 h.symm)
  have e2 : (("removeMark" : String) = st) = False := eq_false (fun h => h2 h.symm)
  have e3 : (("replace" : String) = st) = False := eq_false (fun h => h3 h.symm)
  have e4 : (("replaceAround" : String) = st) = False := eq_false (fun h => h4 h.symm)
  simp [stepFromJSON, hlen, hget, stepsByID, List.find?, e1, e2, e3, e4]
  rfl

/-- C4 witness: the amended theorem applied to the stepType tableSort. -/
theorem c4_witness :
    stepFromJSON schemaEm [("stepType", .js "tableSort")]
      = .err ("No step " ++ "tableSort" ++ " defined") :=
  (c4_stepFromJSON_dispatch "tableSort" (by decide)
    [("stepType", .js "tableSort")] rfl (by decide)).1

/-- Crash characterization of computeAttrs: when some spec entry lacks a
default and is not supplied, the result is the Go panic with the message
naming a missing required attribute. -/
theorem computeAttrsGo_crash_of_missing (specs : List (String × Attribute))
    (given : Attrs)
    (h : ∃ p ∈ specs, p.2.hasDefault = false ∧ attrsGet given p.1 = none) :
    ∃ nm att, (nm, att) ∈ specs ∧ att.hasDefault = false ∧
      attrsGet given nm = none ∧
      computeAttrsGo specs given = .crash s!"No value supplied for attribute {nm}" := by
  induction specs with
  | nil => simp at h
  | cons p rest ih =>
    obtain ⟨q, hq, hreq, hmiss⟩ := h
    by_cases hsup : attrsGet given p.1 = none
    · by_cases hdef : p.2.hasDefault
      · have hq' : q ∈ rest := by
          rcases List.mem_cons.mp hq with h' | h'
          · subst h'; rw [hreq] at hdef; cases hdef
          · exact h'
        obtain ⟨nm, att, hnm, hattr, hmiss2, heq⟩ := ih ⟨q, hq', hreq, hmiss⟩
        refine ⟨nm, att, List.mem_cons_of_mem _ hnm, hattr, hmiss2, ?_⟩
        cases p with
        | mk name attr =>
          simp only at hsup hdef
          simp [computeAttrsGo, hsup, hdef, heq]
      · refine ⟨p.1, p.2, List.mem_cons_self _ _, by simpa using hdef, hsup, ?_⟩
        cases p with
        | mk name attr =>
          simp only at hsup hdef
          simp [computeAttrsGo, hsup, hdef]
    · obtain ⟨v, hv⟩ := Option.ne_none_iff_exists'.mp hsup
      have hq' : q ∈ rest := by
        rcases List.mem_cons.mp hq with h' | h'
        · subst h'; rw [hmiss] at hv; cases hv
        · exact h'
      obtain ⟨nm, att, hnm, hattr, hmiss2, heq⟩ := ih ⟨q, hq', hreq, hmiss⟩
      refine ⟨nm, att, List.mem_cons_of_mem _ hnm, hattr, hmiss2, ?_⟩
      cases p with
      | mk name attr =>
        simp only at hv
        simp [computeAttrsGo, hv, heq]

/-- C8 counterexample: with an image node type whose src attribute has no
default (a nil AttributeSpec in the Go sources), NodeType.Create without a
src value panics with the attribute message rather than returning it as an
error value, because computeAttrs (model/schema.go) calls panic; likewise
MarkType.Create for a link mark whose href attribute has no default. -/
theorem c8_counterexample_create_panics :
    nodeTypeCreate ⟨"image", true, ["inline"],
        0, [("src", ⟨false, .null⟩), ("alt", ⟨true, .null⟩)], some []⟩ [] [] []
      = .crash "No value supplied for attribute src" ∧
    markTypeCreate ⟨"link", 0, [("href", ⟨false, .null⟩), ("title", ⟨true, .null⟩)],
        ["link"], none⟩ []
      = .crash "No value supplied for attribute href" := by
  refine ⟨by decide, by decide⟩

/-- C8 amended: when a required attribute (one with no default) is missing,
node and mark construction panic with the message No value supplied for
attribute X instead of returning it as an error value; the message itself is
as the claim states it. -/
theorem c8_missing_required_attr_panics
    (nt : NodeTypeE) (mt : MarkTypeE) (given : Attrs)
    (nm : String) (att : Attribute) (nmm : String) (attm : Attribute)
    (hnt : (nm, att) ∈ nt.attrs) (hreq : att.hasDefault = false)
    (hmiss : attrsGet given nm = none)
    (hmt : (nmm, attm) ∈ mt.attrs) (hreqm : attm.hasDefault = false)
    (hmissm : attrsGet given nmm = none)
    (htext : nt.isTextT = false)
    (content : List Node) (marks : List Mark) :
    (∃ nm2, nodeTypeCreate nt given content marks
        = .crash s!"No value supplied for attribute {nm2}" ∧
      ∃ att2, (nm2, att2) ∈ nt.attrs ∧ att2.hasDefault = false ∧
        attrsGet given nm2 = none) ∧
    (markTypeCreate mt given).isCrash = true := by
  obtain ⟨nm2, att2, hmem, hdef, hm2, heq⟩ :=
    computeAttrsGo_crash_of_missing nt.attrs given ⟨(nm, att), hnt, hreq, hmiss⟩
  obtain ⟨nm3, att3, hmem3, hdef3, hm3, heq3⟩ :=
    computeAttrsGo_crash_of_missing mt.attrs given ⟨(nmm, attm), hmt, hreqm, hmissm⟩
  have hdflt : defaultAttrsOf nt.attrs = none := by
    simp only [defaultAttrsOf, ite_eq_right_iff]
    intro hall
    have := List.all_eq_true.mp hall (nm2, att2) hmem
    simp only [hdef] at this
    cases this
  constructor
  · refine ⟨nm2, ?_, att2, hmem, hdef, hm2⟩
    simp only [nodeTypeCreate, htext, Bool.false_eq_true, if_false, ntComputeAttrs,
      hdflt, Option.getD_none, List.length_nil, gt_iff_lt, lt_self_iff_false,
      and_false, if_false, heq]
  · have hne : mt.attrs.length ≠ 0 := by
      intro hlen
      rw [List.length_eq_zero] at hlen
      rw [hlen] at hmem3
      cases hmem3
    simp only [markTypeCreate, hne, false_and, if_false, heq3, PE.isCrash]

/-- C8 witness: the amended theorem applied to the image and link types. -/
theorem c8_witness :
    (∃ nm2, nodeTypeCreate ⟨"image", true, ["inline"], 0,
        [("src", ⟨false, .null⟩), ("alt", ⟨true, .null⟩)], some []⟩ [] [] []
          = .crash s!"No value supplied for attribute {nm2}" ∧
      ∃ att2, (nm2, att2) ∈ [("src", (⟨false, .null⟩ : Attribute)),
          ("alt", ⟨true, .null⟩)] ∧ att2.hasDefault = false ∧
        attrsGet [] nm2 = none) ∧
    (markTypeCreate ⟨"link", 0, [("href", ⟨false, .null⟩), ("title", ⟨true, .null⟩)],
        ["link"], none⟩ []).isCrash = true :=
  c8_missing_required_attr_panics
    ⟨"image", true, ["inline"], 0, [("src", ⟨false, .null⟩), ("alt", ⟨true, .null⟩)], some []⟩
    ⟨"link", 0, [("href", ⟨false, .null⟩), ("title", ⟨true, .null⟩)], ["link"], none⟩
    [] "src" ⟨false, .null⟩ "href" ⟨false, .null⟩
    (by decide) rfl rfl (by decide) rfl rfl rfl [] []

/-- C7: for resolved positions from and to (from at or before to) and any
slice, replace (model/replace.go) fails with exactly the message Inserted
content deeper than insertion position when the slice's openStart exceeds
the depth of from, and otherwise fails with exactly Inconsistent open depths
when the open depths do not line up; in both cases the result is an error,
so no document is produced. -/
theorem c7_replace_open_depth_checks (rf rt : ResolvedPos) (slice : Slice)
    (hle : rf.pos ≤ rt.pos) :
    (slice.openStart > rf.depth → ∀ a : CMArena,
      replace a rf rt slice = .error "Inserted content deeper than insertion position") ∧
    (slice.openStart ≤ rf.depth →
      rf.depth - slice.openStart ≠ rt.depth - slice.openEnd → ∀ a : CMArena,
      replace a rf rt slice = .error "Inconsistent open depths") := by
  constructor
  · intro h a
    simp [replace, h]
  · intro h1 h2 a
    rw [replace, if_neg (by omega), if_pos h2]

/-- C7 witness: the two checks exercised on concrete resolved positions in
doc(p("hello")). -/
theorem c7_witness :
    replace cmArenaBasic ⟨0, [⟨docHello, 0, 0⟩], 0⟩ ⟨0, [⟨docHello, 0, 0⟩], 0⟩
        ⟨[txt "x"], 1, 0⟩
      = .error "Inserted content deeper than insertion position" ∧
    replace cmArenaBasic ⟨0, [⟨docHello, 0, 0⟩], 0⟩ ⟨0, [⟨docHello, 0, 0⟩], 0⟩
        ⟨[txt "x"], 0, 1⟩
      = .error "Inconsistent open depths" := by
  constructor
  · exact (c7_replace_open_depth_checks ⟨0, [⟨docHello, 0, 0⟩], 0⟩
      ⟨0, [⟨docHello, 0, 0⟩], 0⟩ ⟨[txt "x"], 1, 0⟩ (by decide)).1 (by decide) cmArenaBasic
  · exact (c7_replace_open_depth_checks ⟨0, [⟨docHello, 0, 0⟩], 0⟩
      ⟨0, [⟨docHello, 0, 0⟩], 0⟩ ⟨[txt "x"], 0, 1⟩ (by decide)).2 (by decide) (by decide) cmArenaBasic

/-- C10: ReplaceAroundStep.Apply (transform/replace_step.go) returns the
failure Gap is not a flat range exactly when the gap slice computed from
gapFrom and gapTo is open at both ends; with at least one closed side the
check passes and the step proceeds to insert the gap content into the slice
at the insert position (structure is false so the structure check does not
interfere). -/
theorem c10_gap_flat_check (a : CMArena) (s : ReplaceAroundStep) (doc : Node)
    (gap : Slice) (hstruct : s.structureFlag = false)
    (hgap : nodeSlice doc s.gapFrom s.gapTo = .ok gap) :
    (gap.openStart ≠ 0 ∧ gap.openEnd ≠ 0 →
      replaceAroundApply a s doc = .err "Gap is not a flat range") ∧
    (gap.openStart = 0 ∨ gap.openEnd = 0 →
      replaceAroundApply a s doc =
        (match s.slice.insertAt s.insert gap.content with
         | none => .err "Content does not fit in gap"
         | some inserted => fromReplace a doc s.from_ s.to_ inserted)) := by
  constructor
  · intro hopen
    simp [replaceAroundApply, hstruct, hgap, hopen]
  · intro hside
    have hnot : ¬ (gap.openStart ≠ 0 ∧ gap.openEnd ≠ 0) := by
      rcases hside with h | h <;> simp [h]
    simp [replaceAroundApply, hstruct, hgap, hnot]

/-- The two-paragraph document used by the C10 witness. -/
def docAB : Node := docN [para [txt "ab"], para [txt "cd"]]

/-- C10 witness: in doc(p("ab"), p("cd")) the gap 3..5 is open on both sides
and fails, while the gap 3..4 is open only at the start and proceeds to the
insertion. -/
theorem c10_witness :
    replaceAroundApply cmArenaBasic ⟨3, 5, 3, 5, emptySlice, 0, false⟩ docAB
      = .err "Gap is not a flat range" ∧
    replaceAroundApply cmArenaBasic ⟨3, 4, 3, 4, emptySlice, 0, false⟩ docAB
      = (match (emptySlice : Slice).insertAt 0 [para []] with
         | none => .err "Content does not fit in gap"
         | some inserted => fromReplace cmArenaBasic docAB 3 4 inserted) := by
  have hgap1 : nodeSlice docAB 3 5 = .ok ⟨[para [], para []], 1, 1⟩ := by
    simp +decide [nodeSlice, resolvePos, resolveAux, fragFindIndex,
      fragFindIndexRound, findIndexLoop, Except.bind, bind, Except.instMonad,
      Except.map, pure, Except.pure, ResolvedPos.sharedDepth, sharedDepthAux,
      ResolvedPos.depth, ResolvedPos.rD, ResolvedPos.pathEl, ResolvedPos.nodeAtD,
      ResolvedPos.startD, ResolvedPos.endD, fragCut, fragCutLoop, Node.cut,
      Node.copy, Node.withText, goByteSlice, docAB, docN, para, txt, strBytes,
      charUTF8, Node.contentSize, Node.content, nodeListSize, Node.nodeSize,
      Node.isText, Node.text, Node.typ, Node.attrs, Node.marks]
  have hgap2 : nodeSlice docAB 3 4 = .ok ⟨[para []], 1, 0⟩ := by
    simp +decide [nodeSlice, resolvePos, resolveAux, fragFindIndex,
      fragFindIndexRound, findIndexLoop, Except.bind, bind, Except.instMonad,
      Except.map, pure, Except.pure, ResolvedPos.sharedDepth, sharedDepthAux,
      ResolvedPos.depth, ResolvedPos.rD, ResolvedPos.pathEl, ResolvedPos.nodeAtD,
      ResolvedPos.startD, ResolvedPos.endD, fragCut, fragCutLoop, Node.cut,
      Node.copy, Node.withText, goByteSlice, docAB, docN, para, txt, strBytes,
      charUTF8, Node.contentSize, Node.content, nodeListSize, Node.nodeSize,
      Node.isText, Node.text, Node.typ, Node.attrs, Node.marks]
  constructor
  · exact (c10_gap_flat_check cmArenaBasic ⟨3, 5, 3, 5, emptySlice, 0, false⟩
      docAB ⟨[para [], para []], 1, 1⟩ rfl hgap1).1 (by decide)
  · exact (c10_gap_flat_check cmArenaBasic ⟨3, 4, 3, 4, emptySlice, 0, false⟩
      docAB ⟨[para []], 1, 0⟩ rfl hgap2).2 (Or.inr rfl)

/-- Sizes are nonnegative, by strong induction over the node weight. -/
theorem nodeSize_nonneg_bounded :
    ∀ k : Nat, ∀ n : Node, nodeW n ≤ k → 0 ≤ n.nodeSize := by
  intro k
  induction k with
  | zero => intro n h; have := nodeW_pos n; omega
  | succ k ih =>
    intro n h
    cases n with
    | mk t a tx c m =>
      cases tx with
      | some str => simp [Node.nodeSize]
      | none =>
        simp only [Node.nodeSize]
        split
        · omega
        · have hw : nodeListW c ≤ k := by
            have hweq : nodeW (.mk t a none c m) = 1 + nodeListW c := rfl
            omega
          have hc : 0 ≤ nodeListSize c := by
            clear h
            induction c with
            | nil => simp [nodeListSize]
            | cons x xs ihl =>
              simp only [nodeListSize]
              simp only [nodeListW] at hw
              have h1 := ih x (by have := nodeW_pos x; omega)
              have h2 := ihl (by omega)
              omega
          omega

/-- NodeSize is nonnegative. -/
theorem nodeSize_nonneg (n : Node) : 0 ≤ n.nodeSize :=
  nodeSize_nonneg_bounded (nodeW n) n le_rfl

/-- Fragment sizes are nonnegative. -/
theorem nodeListSize_nonneg (l : List Node) : 0 ≤ nodeListSize l := by
  induction l with
  | nil => simp [nodeListSize]
  | cons x xs ih =>
    simp only [nodeListSize]
    have := nodeSize_nonneg x
    omega

/-- resolvePos rejects an out-of-range position with the exact message. -/
theorem resolvePos_out_of_range (doc : Node) (pos : Int)
    (h : pos < 0 ∨ pos > doc.contentSize) :
    resolvePos doc pos = .error s!"Position {pos} out of range" := by
  rw [resolvePos, if_pos]
  omega

/-- Node.NodeAt panics on an out-of-range position (the findIndex error is
re-raised as a panic). -/
theorem nodeAt_crash_of_out_of_range (doc : Node) (pos : Int)
    (h : pos < 0 ∨ pos > doc.contentSize) :
    ∃ m, doc.nodeAt pos = .crash m := by
  have hnn := nodeListSize_nonneg doc.content
  have h0 : ¬ pos = 0 := by
    rcases h with h | h
    · omega
    · simp only [Node.contentSize] at h; omega
  have hs : ¬ pos = nodeListSize doc.content := by
    rcases h with h | h
    · omega
    · simp only [Node.contentSize] at h; omega
  have hrange : pos > nodeListSize doc.content ∨ pos < 0 := by
    rcases h with h | h
    · right; exact h
    · left; simpa [Node.contentSize] using h
  refine ⟨s!"Position {pos} outside of fragment", ?_⟩
  rw [Node.nodeAt]
  simp [fragFindIndex, fragFindIndexRound, h0, hs, hrange]

/-- fromReplace fails (as a value, not a panic) whenever an endpoint is out
of the document's range. -/
theorem fromReplace_err_of_out_of_range (a : CMArena) (doc : Node)
    (from_ to_ : Int) (slice : Slice)
    (h : from_ < 0 ∨ from_ > doc.contentSize ∨ to_ < 0 ∨ to_ > doc.contentSize) :
    ∃ m, fromReplace a doc from_ to_ slice = .err m := by
  rcases h with h | h | h | h
  · refine ⟨s!"Position {from_} out of range", ?_⟩
    simp [fromReplace, nodeReplace, resolvePos_out_of_range doc from_ (Or.inl h),
      Except.bind, bind, Except.instMonad]
  · refine ⟨s!"Position {from_} out of range", ?_⟩
    simp [fromReplace, nodeReplace, resolvePos_out_of_range doc from_ (Or.inr h),
      Except.bind, bind, Except.instMonad]
  all_goals {
    cases hrf : resolvePos doc from_ with
    | error e =>
      exact ⟨e, by simp [fromReplace, nodeReplace, hrf, Except.bind, bind,
        Except.instMonad]⟩
    | ok rf =>
      refine ⟨s!"Position {to_} out of range", ?_⟩
      simp [fromReplace, nodeReplace, hrf,
        resolvePos_out_of_range doc to_ (by omega),
        Except.bind, bind, Except.instMonad]
  }

/-- C3 counterexample: the claim states that every concrete step's Apply
returns a StepResult and never panics, including out-of-range positions; but
SetAttrsStep.Apply on doc(p("hello")) panics for pos -1 and for pos 8
(beyond the document), through the explicit panic in Node.NodeAt. -/
theorem c3_counterexample_setAttrs_apply_panics :
    (setAttrsApply cmArenaBasic ⟨-1, []⟩ docHello).isCrash = true ∧
    (setAttrsApply cmArenaBasic ⟨8, []⟩ docHello).isCrash = true := by
  constructor
  · obtain ⟨m, hm⟩ := nodeAt_crash_of_out_of_range docHello (-1) (by decide)
    simp [setAttrsApply, hm, PE.isCrash]
  · obtain ⟨m, hm⟩ := nodeAt_crash_of_out_of_range docHello 8 (by decide)
    simp [setAttrsApply, hm, PE.isCrash]

/-- C3 amended: for positions outside the document's range, ReplaceStep,
ReplaceAroundStep, AddMarkStep and RemoveMarkStep return a failed StepResult
rather than panicking, but SetAttrsStep.Apply panics (through Node.NodeAt)
when pos is less than 0 or greater than the document's content size, instead
of returning the failure. -/
theorem c3_apply_out_of_range (a : CMArena) (doc : Node) (from_ to_ pos : Int)
    (hft : from_ < 0 ∨ from_ > doc.contentSize ∨ to_ < 0 ∨ to_ > doc.contentSize)
    (hpos : pos < 0 ∨ pos > doc.contentSize) :
    (∀ slice stf, ∃ m, replaceStepApply a ⟨from_, to_, slice, stf⟩ doc = .err m) ∧
    (∀ gf gt slice ins stf,
      ∃ m, replaceAroundApply a ⟨from_, to_, gf, gt, slice, ins, stf⟩ doc = .err m) ∧
    (∀ mark, ∃ m, addMarkApply a ⟨from_, to_, mark⟩ doc = .err m) ∧
    (∀ mark, ∃ m, removeMarkApply a ⟨from_, to_, mark⟩ doc = .err m) ∧
    (∀ attrs, (setAttrsApply a ⟨pos, attrs⟩ doc).isCrash = true) := by
  refine ⟨?_, ?_, ?_, ?_, ?_⟩
  · intro slice stf
    cases hcb : stf && contentBetween doc from_ to_ with
    | true =>
      exact ⟨"Structure replace would overwrite content",
        by simp [replaceStepApply, hcb]⟩
    | false =>
      obtain ⟨m, hm⟩ := fromReplace_err_of_out_of_range a doc from_ to_ slice hft
      exact ⟨m, by simp [replaceStepApply, hcb, hm]⟩
  · intro gf gt slice ins stf
    cases hcb : stf && (contentBetween doc from_ gf || contentBetween doc gt to_) with
    | true =>
      exact ⟨"Structure gap-replace would overwrite content",
        by simp [replaceAroundApply, hcb]⟩
    | false =>
      cases hsl : nodeSlice doc gf gt with
      | error e => exact ⟨e, by simp [replaceAroundApply, hcb, hsl]⟩
      | ok gap =>
        by_cases hflat : gap.openStart ≠ 0 ∧ gap.openEnd ≠ 0
        · exact ⟨"Gap is not a flat range",
            by simp [replaceAroundApply, hcb, hsl, hflat]⟩
        · cases hins : slice.insertAt ins gap.content with
          | none =>
            exact ⟨"Content does not fit in gap",
              by simp [replaceAroundApply, hcb, hsl, hflat, hins]⟩
          | some inserted =>
            obtain ⟨m, hm⟩ := fromReplace_err_of_out_of_range a doc from_ to_ inserted hft
            exact ⟨m, by simp [replaceAroundApply, hcb, hsl, hflat, hins, hm]⟩
  · intro mark
    cases hsl : nodeSlice doc from_ to_ with
    | error e => exact ⟨e, by simp [addMarkApply, hsl]⟩
    | ok oldSlice =>
      cases hrf : doc.resolve from_ with
      | error e => exact ⟨e, by simp [addMarkApply, hsl, hrf]⟩
      | ok dFrom =>
        simp only [addMarkApply, hsl, hrf]
        exact fromReplace_err_of_out_of_range a doc from_ to_ _ hft
  · intro mark
    cases hsl : nodeSlice doc from_ to_ with
    | error e => exact ⟨e, by simp [removeMarkApply, hsl]⟩
    | ok oldSlice =>
      simp only [removeMarkApply, hsl]
      exact fromReplace_err_of_out_of_range a doc from_ to_ _ hft
  · intro attrs
    obtain ⟨m, hm⟩ := nodeAt_crash_of_out_of_range doc pos hpos
    simp [setAttrsApply, hm, PE.isCrash]

/-- C3 witness: the amended theorem applied at position 100 in
doc(p("hello")). -/
theorem c3_witness :
    (∃ m, replaceStepApply cmArenaBasic ⟨100, 100, emptySlice, false⟩ docHello = .err m) ∧
    (setAttrsApply cmArenaBasic ⟨100, []⟩ docHello).isCrash = true := by
  have h := c3_apply_out_of_range cmArenaBasic docHello 100 100 100
    (by decide) (by decide)
  exact ⟨h.1 emptySlice false, h.2.2.2.2 []⟩

/-- The descent loop of resolvePos never changes the position it records:
an ok result carries the original pos. (Strong induction on node weight.) -/
theorem resolveAux_pos_bounded :
    ∀ k : Nat, ∀ node : Node, nodeW node ≤ k →
      ∀ (pos po st : Int) (path : List PathEl) (r : ResolvedPos),
        resolveAux pos node po st path = .ok r → r.pos = pos := by
  intro k
  induction k with
  | zero => intro node hk; have := nodeW_pos node; omega
  | succ k ih =>
    intro node hk pos po st path r h
    rw [resolveAux.eq_def] at h
    cases hfi : fragFindIndex node.content po with
    | error e => rw [hfi] at h; exact absurd h (by simp)
    | ok io =>
      obtain ⟨index, offset⟩ := io
      rw [hfi] at h
      simp only at h
      by_cases hrem : po - offset = 0
      · rw [if_pos hrem] at h; cases h; rfl
      · rw [if_neg hrem] at h
        split at h
        · exact absurd h (by simp)
        next child hget =>
          split at h
          · cases h; rfl
          · have hmem : child ∈ node.content := List.get?_mem hget
            have hlt := nodeW_lt_of_mem_content hmem
            exact ih child (by omega) pos _ _ _ r h

/-- An ok result of resolvePos carries the requested position. -/
theorem resolvePos_pos (doc : Node) (pos : Int) (r : ResolvedPos)
    (h : resolvePos doc pos = .ok r) : r.pos = pos := by
  rw [resolvePos] at h
  split at h
  · exact absurd h (by simp)
  · exact resolveAux_pos_bounded (nodeW doc) doc le_rfl pos pos 0 [] r h

/-- Soundness of a cache state: every occupied slot records an actual
resolution result for its document and position. -/
def cacheSound (c : RCache) : Prop :=
  ∀ e : REntry, some e ∈ c.entries → resolvePos e.doc e.res.pos = .ok e.res

/-- A hit in a sound cache is the uncached resolution result. -/
theorem cacheLookup_sound (c : RCache) (doc : Node) (pos : Int)
    (hc : cacheSound c) (r : ResolvedPos)
    (h : cacheLookup c doc pos = some r) :
    resolvePos doc pos = .ok r := by
  unfold cacheLookup at h
  split at h
  next o en hf =>
    cases h
    have hp := List.find?_some hf
    have hmem := List.mem_of_find?_eq_some hf
    simp only [Bool.and_eq_true, decide_eq_true_eq] at hp
    have := hc en hmem
    rw [hp.1, hp.2] at this
    exact this
  next => exact absurd h (by simp)

/-- C9: cached position resolution agrees with uncached resolution. For every
sound cache state, resolvePosCached returns exactly resolvePos's outcome (the
same "Position N out of range" error when pos is below 0 or above the content
size, and otherwise the same ResolvedPos, whose Pos equals the requested
position), and it leaves the cache sound. -/
theorem c9_cached_resolution_equals_uncached (c : RCache) (doc : Node)
    (pos : Int) (hc : cacheSound c) :
    (resolvePosCached c doc pos).1 = resolvePos doc pos ∧
    cacheSound (resolvePosCached c doc pos).2 ∧
    ((pos < 0 ∨ pos > doc.contentSize) →
      (resolvePosCached c doc pos).1 = .error s!"Position {pos} out of range") ∧
    (∀ r, (resolvePosCached c doc pos).1 = .ok r → r.pos = pos) := by
  have hmain : (resolvePosCached c doc pos).1 = resolvePos doc pos ∧
      cacheSound (resolvePosCached c doc pos).2 := by
    unfold resolvePosCached
    cases hl : cacheLookup c doc pos with
    | some r =>
      simp only
      exact ⟨(cacheLookup_sound c doc pos hc r hl).symm, hc⟩
    | none =>
      cases hr : resolvePos doc pos with
      | error e => exact ⟨rfl, hc⟩
      | ok r =>
        refine ⟨rfl, ?_⟩
        intro e he
        simp only at he
        rcases List.mem_or_eq_of_mem_set he with hold | hnew
        · exact hc e hold
        · cases hnew
          simpa [resolvePos_pos doc pos r hr] using hr
  refine ⟨hmain.1, hmain.2, ?_, ?_⟩
  · intro hout
    rw [hmain.1]
    exact resolvePos_out_of_range doc pos hout
  · intro r hr
    rw [hmain.1] at hr
    exact resolvePos_pos doc pos r hr

/-- C9 witness: the theorem applied at the initial (empty, trivially sound)
cache on doc(p("hello")) at position 3. -/
theorem c9_witness :
    cacheSound initialCache ∧
    (resolvePosCached initialCache docHello 3).1 = resolvePos docHello 3 := by
  have hs : cacheSound initialCache := by
    intro e he
    simp [initialCache, List.mem_replicate] at he
  exact ⟨hs, (c9_cached_resolution_equals_uncached initialCache docHello 3 hs).1⟩

/-- C6: the source tokenizer is strings.Fields (whitespace split), not the
word-boundary split the spec describes. On "hard_break\x7b2,4\x7d image?" it
produces two whitespace-separated tokens where the specified tokenizer
produces eight word-boundary tokens, and the parser then rejects the whole
expression with an Unexpected token error instead of compiling it. -/
theorem c6_tokenizer_splits_on_whitespace_not_word_boundaries :
    (newTokenStream "hard_break\x7b2,4\x7d image?" []).tokens
      = ["hard_break\x7b2,4\x7d", "image?"] ∧
    specTokenize "hard_break\x7b2,4\x7d image?"
      = ["hard_break", "\x7b", "2", ",", "4", "\x7d", "image", "?"] ∧
    (newTokenStream "hard_break\x7b2,4\x7d image?" []).tokens
      ≠ specTokenize "hard_break\x7b2,4\x7d image?" ∧
    parseExpr 10 (newTokenStream "hard_break\x7b2,4\x7d image?" []) =
      .error "Unexpected token \"hard_break\x7b2,4\x7d\" (in content expression \"hard_break\x7b2,4\x7d image?\")" := by
  refine ⟨by decide, by decide, by decide, ?_⟩
  rfl

end PMGo
